import Mathlib

/-!
Verification of the Marketplace Consistency Engine of the real-estate
marketplace backend (assaidy/real-estate-website).

The repository under `src/` contains the Mongoose schema declarations
(`src/unnamed/part_000`), the migration that creates the collections and
indexes (`src/migrate-mongo-config.js`) and integration tests
(`src/__tests__/database.integration.test.js`).  The four engines of the
specification (Offer Negotiation Engine, Booking Conflict Resolver, Rating
Aggregator, Counter Synchronizer) and the cross-cutting Soft-Delete Policy
are declared and specified but their bodies are not part of `src/`; those
operations are therefore modelled from the specification text (each such
definition carries a doc comment starting with `Modelled from the spec:`),
while everything schema-level (statuses, field lists, indexes) is
translated from the source files.

Entity references (users, properties, offers, ...) are modelled as natural
numbers, time instants and monetary amounts as integers, and the rational
`averageRating` aggregate as an exact rational number.
-/

/-- Error taxonomy of the engines, from spec section 7: typed failures
returned at the engine boundary. -/
inductive EngineError
  | InvalidTransition
  | DuplicateActiveOffer
  | SlotConflict
  | AlreadyFavorited
  | NotAuthorized
  | NotFound
  | InvalidRating
  | InvalidAmount
  | InvalidSlot
deriving DecidableEq, Repr

/-! ## Offer Negotiation Engine -/

/-- Offer lifecycle statuses, from the `status` enum of `offerSchema`
(`src/unnamed/part_000`, offer model: pending, countered, accepted,
rejected, withdrawn; default pending). -/
inductive OfferStatus
  | pending
  | countered
  | accepted
  | rejected
  | withdrawn
deriving DecidableEq, Repr

/-- Non-terminal offer statuses: pending and countered (spec section 4.1
state machine). -/
def OfferStatus.isActiveStatus : OfferStatus → Bool
  | .pending => true
  | .countered => true
  | _ => false

/-- Terminal offer statuses: accepted, rejected, withdrawn (spec section
4.1: all others terminal, no outgoing transitions). -/
def OfferStatus.isTerminal : OfferStatus → Bool
  | .accepted => true
  | .rejected => true
  | .withdrawn => true
  | _ => false

/-- Offer record, fields from `offerSchema` in `src/unnamed/part_000`
(property, buyer, amount, status, expiresAt, isDeleted) plus the identity
every document carries. -/
structure Offer where
  id : Nat
  property : Nat
  buyer : Nat
  amount : Int
  status : OfferStatus
  expiresAt : Int
  isDeleted : Bool
deriving DecidableEq, Repr

/-- An offer counts as active when its status is non-terminal and it is not
soft-deleted (spec sections 4.1 and 4.5). -/
def Offer.isActive (o : Offer) : Bool :=
  o.status.isActiveStatus && !o.isDeleted

namespace OfferEngine

/-- State of the offer store: the offer collection plus the next fresh
document identity. -/
structure State where
  offers : List Offer
  nextId : Nat
deriving DecidableEq, Repr

/-- Empty offer store. -/
def init : State := ⟨[], 0⟩

/-- True when `o` is an active offer of the (buyer, property) pair. -/
def isActiveFor (buyer property : Nat) (o : Offer) : Bool :=
  o.buyer == buyer && o.property == property && o.isActive

/-- Modelled from the spec: the duplicate-active-offer check of section 4.1,
true when an existing offer for (buyer, property) has status in
pending/countered and is not soft-deleted. -/
def hasActiveOffer (offers : List Offer) (buyer property : Nat) : Bool :=
  offers.any (isActiveFor buyer property)

/-- The active offers of a (buyer, property) pair in a collection. -/
def activeFor (offers : List Offer) (buyer property : Nat) : List Offer :=
  offers.filter (isActiveFor buyer property)

/-- Modelled from the spec: offer lookup; per the Soft-Delete Policy
(section 4.5) every query implicitly filters `isDeleted = false`. -/
def findOffer (s : State) (offerId : Nat) : Option Offer :=
  s.offers.find? fun o => o.id == offerId && !o.isDeleted

/-- Modelled from the spec: `create(buyer, property, amount, expiresAt)` of
section 4.1 — fails with DuplicateActiveOffer if an active offer for the
pair exists, fails with InvalidAmount if the amount is not positive,
otherwise creates an offer in status pending and returns it. -/
def create (s : State) (buyer property : Nat) (amount expiresAt : Int) :
    Except EngineError (State × Offer) :=
  if hasActiveOffer s.offers buyer property then .error .DuplicateActiveOffer
  else if amount ≤ 0 then .error .InvalidAmount
  else
    .ok (⟨⟨s.nextId, property, buyer, amount, .pending, expiresAt, false⟩ :: s.offers,
      s.nextId + 1⟩, ⟨s.nextId, property, buyer, amount, .pending, expiresAt, false⟩)

/-- Per-document write of `counter`: the countered offer gets the new
amount and expiry, every other document is untouched. -/
def counterUpdate (offerId : Nat) (newAmount newExpiresAt : Int) (x : Offer) : Offer :=
  if x.id == offerId then
    { x with status := .countered, amount := newAmount, expiresAt := newExpiresAt }
  else x

/-- Per-document write setting the status of one offer. -/
def setStatus (offerId : Nat) (st : OfferStatus) (x : Offer) : Offer :=
  if x.id == offerId then { x with status := st } else x

/-- Per-document write of the `accept` batch of spec section 4.1: the
accepted offer becomes accepted and, in the same batch, every other active
offer on the same property becomes rejected. -/
def acceptUpdate (offerId property : Nat) (x : Offer) : Offer :=
  if x.id == offerId then { x with status := .accepted }
  else if x.property == property && x.status.isActiveStatus && !x.isDeleted then
    { x with status := .rejected }
  else x

/-- Per-document write of the soft delete. -/
def softDeleteUpdate (offerId : Nat) (x : Offer) : Offer :=
  if x.id == offerId then { x with isDeleted := true } else x

/-- Modelled from the spec: `counter(offerId, actor, newAmount)` of section
4.1 — only valid from pending/countered (InvalidTransition otherwise), the
actor must be the property owner/agent (NotAuthorized otherwise, with
`env actor property` the ownership capability check of section 9); sets the
status to countered, updates the amount and resets expiresAt. -/
def counter (env : Nat → Nat → Bool) (s : State) (offerId actor : Nat)
    (newAmount newExpiresAt : Int) : Except EngineError State :=
  match findOffer s offerId with
  | none => .error .NotFound
  | some o =>
    if o.status.isTerminal then .error .InvalidTransition
    else if !env actor o.property then .error .NotAuthorized
    else .ok ⟨s.offers.map (counterUpdate offerId newAmount newExpiresAt), s.nextId⟩

/-- Modelled from the spec: `accept(offerId, actor)` of section 4.1 — valid
only from pending/countered; moves the offer to accepted and, in the same
atomic batch, transitions every other non-terminal offer on the same
property to rejected. -/
def accept (env : Nat → Nat → Bool) (s : State) (offerId actor : Nat) :
    Except EngineError State :=
  match findOffer s offerId with
  | none => .error .NotFound
  | some o =>
    if o.status.isTerminal then .error .InvalidTransition
    else if !env actor o.property then .error .NotAuthorized
    else .ok ⟨s.offers.map (acceptUpdate offerId o.property), s.nextId⟩

/-- Modelled from the spec: `reject(offerId, actor)` of section 4.1 — valid
only from pending/countered; moves the offer to the terminal rejected
status. -/
def reject (env : Nat → Nat → Bool) (s : State) (offerId actor : Nat) :
    Except EngineError State :=
  match findOffer s offerId with
  | none => .error .NotFound
  | some o =>
    if o.status.isTerminal then .error .InvalidTransition
    else if !env actor o.property then .error .NotAuthorized
    else .ok ⟨s.offers.map (setStatus offerId .rejected), s.nextId⟩

/-- Modelled from the spec: `withdraw(offerId, actor)` of section 4.1 —
valid only from pending/countered, the actor must be the buyer; moves the
offer to withdrawn. -/
def withdraw (s : State) (offerId actor : Nat) : Except EngineError State :=
  match findOffer s offerId with
  | none => .error .NotFound
  | some o =>
    if o.status.isTerminal then .error .InvalidTransition
    else if actor != o.buyer then .error .NotAuthorized
    else .ok ⟨s.offers.map (setStatus offerId .withdrawn), s.nextId⟩

/-- Modelled from the spec: the Soft-Delete Policy write of section 4.5
applied to an offer — sets `isDeleted = true`; re-deleting an
already-deleted offer is a no-op returning success, not an error. -/
def softDelete (s : State) (offerId : Nat) : Except EngineError State :=
  match s.offers.find? (fun o => o.id == offerId) with
  | none => .error .NotFound
  | some _ => .ok ⟨s.offers.map (softDeleteUpdate offerId), s.nextId⟩

/-- Offer-engine operations (spec section 4.1 plus the soft delete of
section 4.5). -/
inductive Op
  | create (buyer property : Nat) (amount expiresAt : Int)
  | counter (offerId actor : Nat) (newAmount newExpiresAt : Int)
  | accept (offerId actor : Nat)
  | reject (offerId actor : Nat)
  | withdraw (offerId actor : Nat)
  | softDelete (offerId : Nat)
deriving DecidableEq, Repr

/-- One engine operation against the store; a typed failure leaves the
store unchanged (spec section 7: errors are recovered at the engine
boundary). -/
def applyOp (env : Nat → Nat → Bool) (s : State) : Op → State
  | .create b p a e => match create s b p a e with
    | .ok (s', _) => s'
    | .error _ => s
  | .counter oid act a e => match counter env s oid act a e with
    | .ok s' => s'
    | .error _ => s
  | .accept oid act => match accept env s oid act with
    | .ok s' => s'
    | .error _ => s
  | .reject oid act => match reject env s oid act with
    | .ok s' => s'
    | .error _ => s
  | .withdraw oid act => match withdraw s oid act with
    | .ok s' => s'
    | .error _ => s
  | .softDelete oid => match softDelete s oid with
    | .ok s' => s'
    | .error _ => s

/-- Run a sequence of offer-engine operations from the empty store under
the ownership environment `env`. -/
def run (env : Nat → Nat → Bool) (ops : List Op) : State :=
  ops.foldl (applyOp env) init

end OfferEngine

/-! ## Booking Conflict Resolver -/

/-- Booking statuses, from the `status` enum of `bookingSchema`
(`src/unnamed/part_000`: pending, approved, rejected, completed,
cancelled; default pending). -/
inductive BookingStatus
  | pending
  | approved
  | rejected
  | completed
  | cancelled
deriving DecidableEq, Repr

/-- True exactly for the approved status. -/
def BookingStatus.isApproved : BookingStatus → Bool
  | .approved => true
  | _ => false

/-- Booking record, fields from `bookingSchema` in `src/unnamed/part_000`
(property, buyer, scheduledDate, status) plus the identity and the tour
duration passed to `schedule` (spec section 4.2). -/
structure Booking where
  id : Nat
  property : Nat
  buyer : Nat
  scheduledDate : Int
  durationMinutes : Int
  status : BookingStatus
deriving DecidableEq, Repr

/-- End of the half-open tour interval of a booking:
scheduledDate + duration. -/
def Booking.slotEnd (b : Booking) : Int :=
  b.scheduledDate + b.durationMinutes

/-- Overlap test of spec section 4.2 on half-open intervals: [s1,e1) and
[s2,e2) overlap iff s1 < e2 and s2 < e1. -/
def overlapsI (s1 e1 s2 e2 : Int) : Bool :=
  s1 < e2 && s2 < e1

/-- Two bookings overlap when their tour intervals do. -/
def Booking.overlaps (b1 b2 : Booking) : Bool :=
  overlapsI b1.scheduledDate b1.slotEnd b2.scheduledDate b2.slotEnd

namespace BookingEngine

/-- State of the booking store: the booking collection plus the next fresh
document identity. -/
structure State where
  bookings : List Booking
  nextId : Nat
deriving DecidableEq, Repr

/-- Empty booking store. -/
def init : State := ⟨[], 0⟩

/-- Booking lookup by identity. -/
def findBooking (s : State) (bookingId : Nat) : Option Booking :=
  s.bookings.find? fun b => b.id == bookingId

/-- Modelled from the spec: the slot-conflict check of section 4.2 — true
when another booking on the same property already holds status approved
with an overlapping interval. -/
def hasApprovedConflict (bookings : List Booking) (b : Booking) : Bool :=
  bookings.any fun x =>
    x.id != b.id && x.property == b.property && x.status.isApproved && x.overlaps b

/-- Per-document write setting the status of one booking. -/
def setStatus (bookingId : Nat) (st : BookingStatus) (x : Booking) : Booking :=
  if x.id == bookingId then { x with status := st } else x

/-- Modelled from the spec: `schedule(buyer, property, scheduledDate,
durationMinutes)` of section 4.2 — fails with InvalidSlot if the date is in
the past (before `now`), otherwise creates a pending booking with no
conflict check at creation time. -/
def schedule (s : State) (buyer property : Nat) (scheduledDate durationMinutes now : Int) :
    Except EngineError (State × Booking) :=
  if scheduledDate < now then .error .InvalidSlot
  else
    .ok (⟨⟨s.nextId, property, buyer, scheduledDate, durationMinutes, .pending⟩ :: s.bookings,
      s.nextId + 1⟩, ⟨s.nextId, property, buyer, scheduledDate, durationMinutes, .pending⟩)

/-- Modelled from the spec: `approve(bookingId, actor)` of section 4.2 —
only a pending booking can be approved (terminal states have no outgoing
transitions), the actor must be the property owner/agent (NotAuthorized
otherwise), and the approval fails with SlotConflict if any other booking
on the same property already holds status approved with an overlapping
interval; on success the booking transitions to approved. -/
def approve (env : Nat → Nat → Bool) (s : State) (bookingId actor : Nat) :
    Except EngineError State :=
  match findBooking s bookingId with
  | none => .error .NotFound
  | some b =>
    if b.status ≠ .pending then .error .InvalidTransition
    else if !env actor b.property then .error .NotAuthorized
    else if hasApprovedConflict s.bookings b then .error .SlotConflict
    else .ok ⟨s.bookings.map (setStatus bookingId .approved), s.nextId⟩

/-- Modelled from the spec: `reject(bookingId, actor)` of section 4.2 —
standard transition of a pending booking to the terminal rejected
status. -/
def reject (s : State) (bookingId actor : Nat) : Except EngineError State :=
  match findBooking s bookingId with
  | none => .error .NotFound
  | some b =>
    if b.status ≠ .pending then .error .InvalidTransition
    else .ok ⟨s.bookings.map (setStatus bookingId .rejected), s.nextId⟩

/-- Modelled from the spec: `cancel(bookingId, actor)` of section 4.2 —
moves a not-yet-terminal booking to the terminal cancelled status. -/
def cancel (s : State) (bookingId actor : Nat) : Except EngineError State :=
  match findBooking s bookingId with
  | none => .error .NotFound
  | some b =>
    if b.status ≠ .pending ∧ b.status ≠ .approved then .error .InvalidTransition
    else .ok ⟨s.bookings.map (setStatus bookingId .cancelled), s.nextId⟩

/-- Modelled from the spec: `complete(bookingId, actor)` of section 4.2 —
completed is only reachable from approved and only after scheduledDate has
elapsed; attempting to complete early fails with InvalidTransition. -/
def complete (s : State) (bookingId actor : Nat) (now : Int) :
    Except EngineError State :=
  match findBooking s bookingId with
  | none => .error .NotFound
  | some b =>
    if b.status ≠ .approved then .error .InvalidTransition
    else if now < b.scheduledDate then .error .InvalidTransition
    else .ok ⟨s.bookings.map (setStatus bookingId .completed), s.nextId⟩

/-- Booking-engine operations (spec section 4.2); each operation carries
the clock reading `now` it runs under where the spec consults time. -/
inductive Op
  | schedule (buyer property : Nat) (scheduledDate durationMinutes now : Int)
  | approve (bookingId actor : Nat)
  | reject (bookingId actor : Nat)
  | cancel (bookingId actor : Nat)
  | complete (bookingId actor : Nat) (now : Int)
deriving DecidableEq, Repr

/-- One engine operation against the store; a typed failure leaves the
store unchanged. -/
def applyOp (env : Nat → Nat → Bool) (s : State) : Op → State
  | .schedule b p d dur now => match schedule s b p d dur now with
    | .ok (s', _) => s'
    | .error _ => s
  | .approve bid act => match approve env s bid act with
    | .ok s' => s'
    | .error _ => s
  | .reject bid act => match reject s bid act with
    | .ok s' => s'
    | .error _ => s
  | .cancel bid act => match cancel s bid act with
    | .ok s' => s'
    | .error _ => s
  | .complete bid act now => match complete s bid act now with
    | .ok s' => s'
    | .error _ => s

/-- Run a sequence of booking-engine operations from the empty store. -/
def run (env : Nat → Nat → Bool) (ops : List Op) : State :=
  ops.foldl (applyOp env) init

end BookingEngine

/-! ## Rating Aggregator -/

/-- Review record, fields from `reviewSchema` in `src/unnamed/part_000`
(property, user, rating, comment) plus the identity and the soft-delete
marker the spec's Rating Aggregator relies on (sections 3, 4.3 and 4.5);
the rating is an integer per spec section 3. -/
structure Review where
  id : Nat
  property : Nat
  user : Nat
  rating : Int
  comment : String
  isDeleted : Bool
deriving DecidableEq, Repr

namespace RatingEngine

/-- State of the review store together with the denormalized per-property
aggregates of spec section 4.3: `ratingsCount` and `averageRating`. -/
structure State where
  reviews : List Review
  nextId : Nat
  ratingsCount : Nat → Nat
  averageRating : Nat → ℚ

/-- Empty review store with zero aggregates. -/
def init : State := ⟨[], 0, fun _ => 0, fun _ => 0⟩

/-- True when `r` is the non-deleted review of (user, property). -/
def isActiveReviewOf (user property : Nat) (r : Review) : Bool :=
  r.user == user && r.property == property && !r.isDeleted

/-- Modelled from the spec: lookup of the non-deleted review of
(user, property); soft-deleted reviews are excluded per section 4.5. -/
def findReview (reviews : List Review) (user property : Nat) : Option Review :=
  reviews.find? (isActiveReviewOf user property)

/-- Edit-in-place of the non-deleted review of (user, property): the
matching review keeps its identity and gets the new rating and comment. -/
def editReview (user property : Nat) (rating : Int) (comment : String) :
    List Review → List Review
  | [] => []
  | r :: rest =>
    if isActiveReviewOf user property r then
      { r with rating := rating, comment := comment } :: rest
    else r :: editReview user property rating comment rest

/-- Soft delete of the non-deleted review of (user, property). -/
def markDeleted (user property : Nat) : List Review → List Review
  | [] => []
  | r :: rest =>
    if isActiveReviewOf user property r then
      { r with isDeleted := true } :: rest
    else r :: markDeleted user property rest

/-- The non-deleted reviews of a property. -/
def activeReviewsOf (reviews : List Review) (property : Nat) : List Review :=
  reviews.filter fun r => r.property == property && !r.isDeleted

/-- Sum of the ratings of the non-deleted reviews of a property. -/
def ratingSum (reviews : List Review) (property : Nat) : ℚ :=
  ((activeReviewsOf reviews property).map fun r => (r.rating : ℚ)).sum

/-- Modelled from the spec: `upsertReview(user, property, rating, comment)`
of section 4.3 — fails with InvalidRating if the rating is not in [1,5];
if a non-deleted review for (user, property) already exists this is an edit
(aggregate recomputed with delta = newRating − oldRating, count unchanged);
otherwise a creation (count incremented, sum increased by the rating).  The
stored average is refreshed synchronously with the review write. -/
def upsertReview (s : State) (user property : Nat) (rating : Int) (comment : String) :
    Except EngineError State :=
  if rating < 1 ∨ 5 < rating then .error .InvalidRating
  else
    match findReview s.reviews user property with
    | some old =>
      .ok ⟨editReview user property rating comment s.reviews, s.nextId, s.ratingsCount,
        fun p => if p = property then
            (s.averageRating property * (s.ratingsCount property : ℚ) +
              ((rating : ℚ) - (old.rating : ℚ))) / (s.ratingsCount property : ℚ)
          else s.averageRating p⟩
    | none =>
      .ok ⟨⟨s.nextId, property, user, rating, comment, false⟩ :: s.reviews, s.nextId + 1,
        fun p => if p = property then s.ratingsCount property + 1 else s.ratingsCount p,
        fun p => if p = property then
            (s.averageRating property * (s.ratingsCount property : ℚ) + (rating : ℚ)) /
              ((s.ratingsCount property : ℚ) + 1)
          else s.averageRating p⟩

/-- Modelled from the spec: `removeReview(user, property)` of section 4.3 —
fails with NotFound if no active review exists; otherwise soft-deletes the
review and decrements count/sum, the exposed average being 0 when the count
reaches 0 (never a division by zero). -/
def removeReview (s : State) (user property : Nat) : Except EngineError State :=
  match findReview s.reviews user property with
  | none => .error .NotFound
  | some old =>
    .ok ⟨markDeleted user property s.reviews, s.nextId,
      fun p => if p = property then s.ratingsCount property - 1 else s.ratingsCount p,
      fun p => if p = property then
          if s.ratingsCount property - 1 = 0 then 0
          else (s.averageRating property * (s.ratingsCount property : ℚ) - (old.rating : ℚ)) /
            ((s.ratingsCount property - 1 : Nat) : ℚ)
        else s.averageRating p⟩

/-- Rating-aggregator operations (spec section 4.3: review create, edit and
soft removal). -/
inductive Op
  | upsert (user property : Nat) (rating : Int) (comment : String)
  | remove (user property : Nat)
deriving DecidableEq, Repr

/-- One aggregator operation against the store; a typed failure leaves the
store unchanged. -/
def applyOp (s : State) : Op → State
  | .upsert u p r c => match upsertReview s u p r c with
    | .ok s' => s'
    | .error _ => s
  | .remove u p => match removeReview s u p with
    | .ok s' => s'
    | .error _ => s

/-- Run a sequence of review operations from the empty store. -/
def run (ops : List Op) : State :=
  ops.foldl applyOp init

end RatingEngine

/-! ## Counter Synchronizer: favorites -/

/-- Favorite record, fields from `favoriteSchema` in `src/unnamed/part_000`
(user, property); presence/absence is the toggle signal (spec section 3). -/
structure Favorite where
  user : Nat
  property : Nat
deriving DecidableEq, Repr

namespace FavoriteEngine

/-- State of the favorite store together with the denormalized per-property
`favoritesCount` of spec section 4.4. -/
structure State where
  favorites : List Favorite
  favoritesCount : Nat → Nat

/-- Empty favorite store with zero counters. -/
def init : State := ⟨[], fun _ => 0⟩

/-- True when the (user, property) pair is already favorited. -/
def isFavorited (favorites : List Favorite) (user property : Nat) : Bool :=
  favorites.any fun f => f.user == user && f.property == property

/-- The favorites of a property. -/
def favoritesOf (favorites : List Favorite) (property : Nat) : List Favorite :=
  favorites.filter fun f => f.property == property

/-- Modelled from the spec: the favorite-toggle add of section 4.4 —
toggling on an already-favorited (user, property) pair is a no-op reporting
AlreadyFavorited rather than double-incrementing; otherwise the favorite is
recorded and the property's favoritesCount incremented. -/
def add (s : State) (user property : Nat) : Except EngineError State :=
  if isFavorited s.favorites user property then .error .AlreadyFavorited
  else .ok ⟨⟨user, property⟩ :: s.favorites,
    fun p => if p = property then s.favoritesCount property + 1 else s.favoritesCount p⟩

/-- Modelled from the spec: the favorite-toggle remove of section 4.4 —
removing an existing favorite decrements the property's favoritesCount;
removing an absent one fails with NotFound. -/
def remove (s : State) (user property : Nat) : Except EngineError State :=
  if isFavorited s.favorites user property then
    .ok ⟨s.favorites.filter fun f => !(f.user == user && f.property == property),
      fun p => if p = property then s.favoritesCount property - 1 else s.favoritesCount p⟩
  else .error .NotFound

/-- Favorite-toggle operations (spec section 4.4). -/
inductive Op
  | add (user property : Nat)
  | remove (user property : Nat)
deriving DecidableEq, Repr

/-- One toggle operation against the store; a typed failure leaves the
store unchanged. -/
def applyOp (s : State) : Op → State
  | .add u p => match add s u p with
    | .ok s' => s'
    | .error _ => s
  | .remove u p => match remove s u p with
    | .ok s' => s'
    | .error _ => s

/-- Run a sequence of favorite-toggle operations from the empty store. -/
def run (ops : List Op) : State :=
  ops.foldl applyOp init

end FavoriteEngine

/-! ## Schema-level facts from the source -/

/-- Required fields of every model per the repository's own Database
Standards section (`src/unnamed/part_000`, Required Fields (All Models)):
isDeleted, deletedAt, createdAt, updatedAt. -/
def requiredModelFields : List String :=
  ["isDeleted", "deletedAt", "createdAt", "updatedAt"]

/-- Fields declared by `bookingSchema` in `src/unnamed/part_000` (property,
buyer, scheduledDate, status, message) plus createdAt/updatedAt added by
the timestamps option. -/
def bookingSchemaFields : List String :=
  ["property", "buyer", "scheduledDate", "status", "message", "createdAt", "updatedAt"]

/-- Fields declared by `reviewSchema` in `src/unnamed/part_000` (property,
user, rating, comment) plus createdAt/updatedAt added by the timestamps
option. -/
def reviewSchemaFields : List String :=
  ["property", "user", "rating", "comment", "createdAt", "updatedAt"]

/-- Fields declared by `favoriteSchema` in `src/unnamed/part_000` (user,
property) plus createdAt/updatedAt added by the timestamps option. -/
def favoriteSchemaFields : List String :=
  ["user", "property", "createdAt", "updatedAt"]

/-- Fields declared by `offerSchema` in `src/unnamed/part_000` (property,
buyer, amount, status, expiresAt, isDeleted) plus createdAt/updatedAt added
by the timestamps option. -/
def offerSchemaFields : List String :=
  ["property", "buyer", "amount", "status", "expiresAt", "isDeleted", "createdAt", "updatedAt"]

/-- The unconditional unique compound index on (property, user) that
`reviewSchema.index` declares in `src/unnamed/part_000` and the migration
creates in `src/migrate-mongo-config.js`: an insert of (user, property) is
rejected when any stored row — soft-deleted or not — already carries the
same pair. -/
def reviewUniqueIndexBlocks (rows : List Review) (user property : Nat) : Bool :=
  rows.any fun r => r.property == property && r.user == user

/-! ## Invariants -/

namespace OfferEngine

/-- Well-formed offer store: document identities are fresh and distinct,
and every (buyer, property) pair has at most one active offer (spec
section 8, first testable property). -/
def WellFormed (s : State) : Prop :=
  (∀ o ∈ s.offers, o.id < s.nextId) ∧ (s.offers.map Offer.id).Nodup ∧
    ∀ b p, (activeFor s.offers b p).length ≤ 1

end OfferEngine

namespace BookingEngine

/-- No two distinct approved bookings of one property overlap (spec
section 8, second testable property). -/
def ApprovedDisjoint (bookings : List Booking) : Prop :=
  ∀ b1 ∈ bookings, ∀ b2 ∈ bookings, b1.id ≠ b2.id → b1.property = b2.property →
    b1.status = .approved → b2.status = .approved → b1.overlaps b2 = false

/-- Well-formed booking store: document identities are fresh and distinct,
and approved tour slots of one property never overlap. -/
def WellFormed (s : State) : Prop :=
  (∀ b ∈ s.bookings, b.id < s.nextId) ∧ (s.bookings.map Booking.id).Nodup ∧
    ApprovedDisjoint s.bookings

end BookingEngine

namespace RatingEngine

/-- Consistency of the denormalized aggregates with the review set (spec
sections 4.3 and 8): for every property the stored count is the number of
non-deleted reviews, average times count is the sum of their ratings, and
the average is 0 when the count is 0. -/
def Consistent (s : State) : Prop :=
  ∀ p, s.ratingsCount p = (activeReviewsOf s.reviews p).length ∧
    s.averageRating p * (s.ratingsCount p : ℚ) = ratingSum s.reviews p ∧
    (s.ratingsCount p = 0 → s.averageRating p = 0)

end RatingEngine

namespace FavoriteEngine

/-- Consistency of the favorites counter with the favorite set, and
uniqueness of each (user, property) favorite (spec sections 3 and 4.4). -/
def Consistent (s : State) : Prop :=
  (∀ p, s.favoritesCount p = (favoritesOf s.favorites p).length) ∧
    ∀ u p, (s.favorites.filter fun f => f.user == u && f.property == p).length ≤ 1

end FavoriteEngine

/-! ## Generic list lemmas -/

/-- Members of a list whose images under a key function form a
duplicate-free list are equal as soon as their keys are. -/
theorem eq_of_key_eq {α : Type} (f : α → Nat) : ∀ {l : List α},
    (l.map f).Nodup → ∀ {x y : α}, x ∈ l → y ∈ l → f x = f y → x = y
  | [], _, _, _, hx, _, _ => absurd hx (List.not_mem_nil _)
  | a :: l, h, x, y, hx, hy, hf => by
    rw [List.map_cons, List.nodup_cons] at h
    rcases List.mem_cons.mp hx with hxa | hxl <;>
      rcases List.mem_cons.mp hy with hya | hyl
    · exact hxa.trans hya.symm
    · exact absurd (hxa ▸ hf ▸ List.mem_map_of_mem f hyl) h.1
    · exact absurd (hya ▸ hf.symm ▸ List.mem_map_of_mem f hxl) h.1
    · exact eq_of_key_eq f h.2 hxl hyl hf

/-- Point of a successful find is preserved by a map that does not disturb
the search predicate. -/
theorem find?_map_of_pred_eq {α : Type} (p : α → Bool) (g : α → α)
    (hg : ∀ x, p (g x) = p x) : ∀ {l : List α} {a : α},
    l.find? p = some a → (l.map g).find? p = some (g a)
  | [], _, h => by simp at h
  | x :: l, a, h => by
    rw [List.map_cons]
    by_cases hp : p x
    · rw [List.find?_cons_of_pos _ hp] at h
      rw [List.find?_cons_of_pos _ ((hg x).trans hp)]
      exact congrArg (fun y => some (g y)) (Option.some.inj h)
    · rw [List.find?_cons_of_neg _ hp] at h
      rw [List.find?_cons_of_neg _ (by simpa [hg x] using hp)]
      exact find?_map_of_pred_eq p g hg h

/-- Filter length never grows under a map that only ever turns the filter
predicate off. -/
theorem length_filter_map_le {α : Type} (p : α → Bool) (g : α → α) :
    ∀ (l : List α), (∀ x ∈ l, p (g x) = true → p x = true) →
    ((l.map g).filter p).length ≤ (l.filter p).length
  | [], _ => Nat.le_refl _
  | x :: l, h => by
    rw [List.map_cons, List.filter_cons, List.filter_cons]
    have ih := length_filter_map_le p g l fun y hy => h y (List.mem_cons_of_mem x hy)
    by_cases hgx : p (g x)
    · have hx : p x = true := h x (List.mem_cons_self x l) hgx
      simp only [hgx, hx, if_true, List.length_cons]
      exact Nat.succ_le_succ ih
    · simp only [hgx, if_neg, Bool.false_eq_true, not_false_iff]
      by_cases hx : p x
      · simp only [hx, if_true, List.length_cons]
        exact Nat.le_succ_of_le ih
      · simp only [hx, Bool.false_eq_true, if_false]
        exact ih

/-! ## Offer-engine lemmas -/

/-- Non-terminal and active statuses are complementary. -/
theorem OfferStatus.isActiveStatus_of_not_terminal {s : OfferStatus}
    (h : s.isTerminal = false) : s.isActiveStatus = true := by
  cases s <;> simp [OfferStatus.isTerminal, OfferStatus.isActiveStatus] at h ⊢

namespace OfferEngine

theorem counterUpdate_id (offerId : Nat) (a e : Int) (x : Offer) :
    (counterUpdate offerId a e x).id = x.id := by
  unfold counterUpdate; split <;> rfl

theorem counterUpdate_buyer (offerId : Nat) (a e : Int) (x : Offer) :
    (counterUpdate offerId a e x).buyer = x.buyer := by
  unfold counterUpdate; split <;> rfl

theorem counterUpdate_property (offerId : Nat) (a e : Int) (x : Offer) :
    (counterUpdate offerId a e x).property = x.property := by
  unfold counterUpdate; split <;> rfl

theorem setStatus_id (offerId : Nat) (st : OfferStatus) (x : Offer) :
    (setStatus offerId st x).id = x.id := by
  unfold setStatus; split <;> rfl

theorem setStatus_buyer (offerId : Nat) (st : OfferStatus) (x : Offer) :
    (setStatus offerId st x).buyer = x.buyer := by
  unfold setStatus; split <;> rfl

theorem setStatus_property (offerId : Nat) (st : OfferStatus) (x : Offer) :
    (setStatus offerId st x).property = x.property := by
  unfold setStatus; split <;> rfl

theorem setStatus_active (offerId : Nat) (st : OfferStatus)
    (hst : st.isActiveStatus = false) (x : Offer) :
    (setStatus offerId st x).isActive = true → x.isActive = true := by
  unfold setStatus; split
  · simp [Offer.isActive, hst]
  · exact id

theorem acceptUpdate_id (offerId p : Nat) (x : Offer) :
    (acceptUpdate offerId p x).id = x.id := by
  unfold acceptUpdate
  split
  · rfl
  · split <;> rfl

theorem acceptUpdate_buyer (offerId p : Nat) (x : Offer) :
    (acceptUpdate offerId p x).buyer = x.buyer := by
  unfold acceptUpdate
  split
  · rfl
  · split <;> rfl

theorem acceptUpdate_property (offerId p : Nat) (x : Offer) :
    (acceptUpdate offerId p x).property = x.property := by
  unfold acceptUpdate
  split
  · rfl
  · split <;> rfl

theorem acceptUpdate_active (offerId p : Nat) (x : Offer) :
    (acceptUpdate offerId p x).isActive = true → x.isActive = true := by
  unfold acceptUpdate
  split
  · simp [Offer.isActive, OfferStatus.isActiveStatus]
  · split
    · simp [Offer.isActive, OfferStatus.isActiveStatus]
    · exact id

theorem softDeleteUpdate_id (offerId : Nat) (x : Offer) :
    (softDeleteUpdate offerId x).id = x.id := by
  unfold softDeleteUpdate; split <;> rfl

theorem softDeleteUpdate_buyer (offerId : Nat) (x : Offer) :
    (softDeleteUpdate offerId x).buyer = x.buyer := by
  unfold softDeleteUpdate; split <;> rfl

theorem softDeleteUpdate_property (offerId : Nat) (x : Offer) :
    (softDeleteUpdate offerId x).property = x.property := by
  unfold softDeleteUpdate; split <;> rfl

theorem softDeleteUpdate_active (offerId : Nat) (x : Offer) :
    (softDeleteUpdate offerId x).isActive = true → x.isActive = true := by
  unfold softDeleteUpdate; split
  · simp [Offer.isActive]
  · exact id

/-- Document identities are untouched by a map that preserves them. -/
theorem map_offer_id_eq (g : Offer → Offer) (hid : ∀ x, (g x).id = x.id) :
    ∀ l : List Offer, (l.map g).map Offer.id = l.map Offer.id
  | [] => rfl
  | x :: l => by
    simp only [List.map_cons, hid x, map_offer_id_eq g hid l]

/-- The active-pair predicate survives undoing a per-document write that
preserves buyer and property and only ever turns activity off. -/
theorem isActiveFor_of_update (b p : Nat) (g : Offer → Offer) (x : Offer)
    (hb : (g x).buyer = x.buyer) (hp : (g x).property = x.property)
    (hact : (g x).isActive = true → x.isActive = true) :
    isActiveFor b p (g x) = true → isActiveFor b p x = true := by
  unfold isActiveFor
  intro h
  rw [hb, hp] at h
  simp only [Bool.and_eq_true] at h ⊢
  exact ⟨⟨h.1.1, h.1.2⟩, hact h.2⟩

/-- Active-offer counts never grow under a per-document write that
preserves buyer and property and only ever turns activity off. -/
theorem activeFor_length_map_le (g : Offer → Offer) (l : List Offer)
    (hb : ∀ x, (g x).buyer = x.buyer) (hp : ∀ x, (g x).property = x.property)
    (hact : ∀ x ∈ l, (g x).isActive = true → x.isActive = true) (b p : Nat) :
    (activeFor (l.map g) b p).length ≤ (activeFor l b p).length := by
  unfold activeFor
  exact length_filter_map_le _ g l
    (fun x hx => isActiveFor_of_update b p g x (hb x) (hp x) (hact x hx))

/-- Well-formedness survives any per-document write that preserves
identity, buyer and property and only ever turns activity off. -/
theorem wf_map (s : State) (g : Offer → Offer)
    (hid : ∀ x, (g x).id = x.id)
    (hb : ∀ x, (g x).buyer = x.buyer) (hp : ∀ x, (g x).property = x.property)
    (hact : ∀ x ∈ s.offers, (g x).isActive = true → x.isActive = true)
    (h : WellFormed s) : WellFormed ⟨s.offers.map g, s.nextId⟩ := by
  obtain ⟨hbound, hnodup, hcount⟩ := h
  refine ⟨?_, ?_, ?_⟩
  · intro o ho
    obtain ⟨x, hx, rfl⟩ := List.mem_map.mp ho
    rw [hid x]
    exact hbound x hx
  · show ((s.offers.map g).map Offer.id).Nodup
    rw [map_offer_id_eq g hid]
    exact hnodup
  · intro b p
    exact le_trans (activeFor_length_map_le g s.offers hb hp hact b p) (hcount b p)

/-- Inversion of a successful `create`: the guards were passed and the new
pending offer was prepended. -/
theorem create_ok {s : State} {b p : Nat} {a e : Int} {s' : State} {o : Offer}
    (h : create s b p a e = .ok (s', o)) :
    hasActiveOffer s.offers b p = false ∧ ¬a ≤ 0 ∧
      s' = ⟨⟨s.nextId, p, b, a, .pending, e, false⟩ :: s.offers, s.nextId + 1⟩ ∧
      o = ⟨s.nextId, p, b, a, .pending, e, false⟩ := by
  unfold create at h
  split at h
  · cases h
  · split at h
    · cases h
    · rename_i hdup hamt
      have hpair := Except.ok.inj h
      exact ⟨Bool.of_not_eq_true hdup, hamt,
        (congrArg Prod.fst hpair).symm, (congrArg Prod.snd hpair).symm⟩

/-- Inversion of a successful `counter`. -/
theorem counter_ok {env : Nat → Nat → Bool} {s : State} {offerId actor : Nat}
    {newAmount newExpiresAt : Int} {s' : State}
    (h : counter env s offerId actor newAmount newExpiresAt = .ok s') :
    ∃ o, findOffer s offerId = some o ∧ o.status.isTerminal = false ∧
      s' = ⟨s.offers.map (counterUpdate offerId newAmount newExpiresAt), s.nextId⟩ := by
  unfold counter at h
  split at h
  · cases h
  · rename_i o hfind
    split at h
    · cases h
    · split at h
      · cases h
      · rename_i hterm _
        exact ⟨o, hfind, Bool.of_not_eq_true hterm, (Except.ok.inj h).symm⟩

/-- Inversion of a successful `accept`. -/
theorem accept_ok {env : Nat → Nat → Bool} {s : State} {offerId actor : Nat} {s' : State}
    (h : accept env s offerId actor = .ok s') :
    ∃ o, findOffer s offerId = some o ∧ o.status.isTerminal = false ∧
      env actor o.property = true ∧
      s' = ⟨s.offers.map (acceptUpdate offerId o.property), s.nextId⟩ := by
  unfold accept at h
  split at h
  · cases h
  · rename_i o hfind
    split at h
    · cases h
    · split at h
      · cases h
      · rename_i hterm hauth
        refine ⟨o, hfind, Bool.of_not_eq_true hterm, ?_, (Except.ok.inj h).symm⟩
        simpa using hauth

/-- Inversion of a successful `reject`. -/
theorem reject_ok {env : Nat → Nat → Bool} {s : State} {offerId actor : Nat} {s' : State}
    (h : reject env s offerId actor = .ok s') :
    ∃ o, findOffer s offerId = some o ∧ o.status.isTerminal = false ∧
      s' = ⟨s.offers.map (setStatus offerId .rejected), s.nextId⟩ := by
  unfold reject at h
  split at h
  · cases h
  · rename_i o hfind
    split at h
    · cases h
    · split at h
      · cases h
      · rename_i hterm _
        exact ⟨o, hfind, Bool.of_not_eq_true hterm, (Except.ok.inj h).symm⟩

/-- Inversion of a successful `withdraw`. -/
theorem withdraw_ok {s : State} {offerId actor : Nat} {s' : State}
    (h : withdraw s offerId actor = .ok s') :
    ∃ o, findOffer s offerId = some o ∧ o.status.isTerminal = false ∧
      s' = ⟨s.offers.map (setStatus offerId .withdrawn), s.nextId⟩ := by
  unfold withdraw at h
  split at h
  · cases h
  · rename_i o hfind
    split at h
    · cases h
    · split at h
      · cases h
      · rename_i hterm _
        exact ⟨o, hfind, Bool.of_not_eq_true hterm, (Except.ok.inj h).symm⟩

/-- Inversion of a successful `softDelete`. -/
theorem softDelete_ok {s : State} {offerId : Nat} {s' : State}
    (h : softDelete s offerId = .ok s') :
    s' = ⟨s.offers.map (softDeleteUpdate offerId), s.nextId⟩ := by
  unfold softDelete at h
  split at h
  · cases h
  · exact (Except.ok.inj h).symm

/-- Well-formedness of the store after a successful `create`. -/
theorem wf_create (s : State) (b p : Nat) (a e : Int)
    (hdup : hasActiveOffer s.offers b p = false) (h : WellFormed s) :
    WellFormed ⟨⟨s.nextId, p, b, a, .pending, e, false⟩ :: s.offers, s.nextId + 1⟩ := by
  obtain ⟨hbound, hnodup, hcount⟩ := h
  refine ⟨?_, ?_, ?_⟩
  · intro o ho
    rcases List.mem_cons.mp ho with rfl | ho'
    · exact Nat.lt_succ_self _
    · exact Nat.lt_succ_of_lt (hbound o ho')
  · show (Offer.id ⟨s.nextId, p, b, a, .pending, e, false⟩ :: s.offers.map Offer.id).Nodup
    rw [List.nodup_cons]
    refine ⟨fun hmem => ?_, hnodup⟩
    obtain ⟨x, hx, hxid⟩ := List.mem_map.mp hmem
    exact absurd hxid (Nat.ne_of_lt (hbound x hx))
  · intro b' p'
    show ((⟨s.nextId, p, b, a, .pending, e, false⟩ :: s.offers).filter (isActiveFor b' p')).length ≤ 1
    rw [List.filter_cons]
    split
    · rename_i hpred
      have hb : b' = b ∧ p' = p := by
        simp only [isActiveFor, Bool.and_eq_true, beq_iff_eq] at hpred
        exact ⟨hpred.1.1.symm, hpred.1.2.symm⟩
      obtain ⟨rfl, rfl⟩ := hb
      have : activeFor s.offers b' p' = [] := by
        unfold activeFor
        rw [List.filter_eq_nil_iff]
        intro x hx hpx
        unfold hasActiveOffer at hdup
        rw [List.any_eq_false] at hdup
        exact hdup x hx hpx
      unfold activeFor at this
      rw [this]
      exact Nat.le_refl 1
    · exact hcount b' p'

/-- Every offer-engine operation preserves well-formedness of the store. -/
theorem wf_applyOp (env : Nat → Nat → Bool) (s : State) (op : Op)
    (h : WellFormed s) : WellFormed (applyOp env s op) := by
  cases op with
  | create b p a e =>
    simp only [applyOp]
    split
    · rename_i s' o heq
      obtain ⟨hdup, _, rfl, _⟩ := create_ok heq
      exact wf_create s b p a e hdup h
    · exact h
  | counter oid act a e =>
    simp only [applyOp]
    split
    · rename_i s' heq
      obtain ⟨o, hfind, hterm, rfl⟩ := counter_ok heq
      have ho : o ∈ s.offers := List.mem_of_find?_eq_some hfind
      have hpred := List.find?_some hfind
      simp only [Bool.and_eq_true, beq_iff_eq, Bool.not_eq_true'] at hpred
      refine wf_map s _ (counterUpdate_id oid a e) (counterUpdate_buyer oid a e)
        (counterUpdate_property oid a e) ?_ h
      intro x hx hgx
      unfold counterUpdate at hgx
      split at hgx
      · rename_i hxid
        have hxo : x = o := eq_of_key_eq Offer.id h.2.1 hx ho
          (by rw [beq_iff_eq] at hxid; rw [hxid, hpred.1])
        subst hxo
        unfold Offer.isActive
        rw [OfferStatus.isActiveStatus_of_not_terminal hterm, hpred.2]
        rfl
      · exact hgx
    · exact h
  | accept oid act =>
    simp only [applyOp]
    split
    · rename_i s' heq
      obtain ⟨o, _, _, _, rfl⟩ := accept_ok heq
      exact wf_map s _ (acceptUpdate_id oid o.property) (acceptUpdate_buyer oid o.property)
        (acceptUpdate_property oid o.property)
        (fun x _ => acceptUpdate_active oid o.property x) h
    · exact h
  | reject oid act =>
    simp only [applyOp]
    split
    · rename_i s' heq
      obtain ⟨o, _, _, rfl⟩ := reject_ok heq
      exact wf_map s _ (setStatus_id oid .rejected) (setStatus_buyer oid .rejected)
        (setStatus_property oid .rejected)
        (fun x _ => setStatus_active oid .rejected rfl x) h
    · exact h
  | withdraw oid act =>
    simp only [applyOp]
    split
    · rename_i s' heq
      obtain ⟨o, _, _, rfl⟩ := withdraw_ok heq
      exact wf_map s _ (setStatus_id oid .withdrawn) (setStatus_buyer oid .withdrawn)
        (setStatus_property oid .withdrawn)
        (fun x _ => setStatus_active oid .withdrawn rfl x) h
    · exact h
  | softDelete oid =>
    simp only [applyOp]
    split
    · rename_i s' heq
      obtain rfl := softDelete_ok heq
      exact wf_map s _ (softDeleteUpdate_id oid) (softDeleteUpdate_buyer oid)
        (softDeleteUpdate_property oid)
        (fun x _ => softDeleteUpdate_active oid x) h
    · exact h

/-- The empty store is well-formed. -/
theorem wf_init : WellFormed init := by
  refine ⟨?_, ?_, ?_⟩
  · intro o ho
    cases ho
  · exact List.nodup_nil
  · intro b p
    exact Nat.le_succ 0

/-- Every store reachable by a sequence of offer-engine operations is
well-formed. -/
theorem wf_run (env : Nat → Nat → Bool) (ops : List Op) : WellFormed (run env ops) := by
  suffices h : ∀ (l : List Op) (s : State), WellFormed s → WellFormed (l.foldl (applyOp env) s) by
    exact h ops init wf_init
  intro l
  induction l with
  | nil => exact fun s hs => hs
  | cons op l ih =>
    intro s hs
    exact ih (applyOp env s op) (wf_applyOp env s op hs)

end OfferEngine

/-! ## Booking-engine lemmas -/

/-- Overlap of bookings is symmetric. -/
theorem Booking.overlaps_comm (x y : Booking) : x.overlaps y = (y.overlaps x) := by
  unfold Booking.overlaps overlapsI
  exact Bool.and_comm _ _

/-- Overlap only depends on the scheduled dates and durations. -/
theorem Booking.overlaps_congr {x y x' y' : Booking}
    (hx1 : x'.scheduledDate = x.scheduledDate) (hx2 : x'.durationMinutes = x.durationMinutes)
    (hy1 : y'.scheduledDate = y.scheduledDate) (hy2 : y'.durationMinutes = y.durationMinutes) :
    x'.overlaps y' = x.overlaps y := by
  unfold Booking.overlaps overlapsI Booking.slotEnd
  rw [hx1, hx2, hy1, hy2]

namespace BookingEngine

theorem bk_setStatus_id (bookingId : Nat) (st : BookingStatus) (x : Booking) :
    (setStatus bookingId st x).id = x.id := by
  unfold setStatus; split <;> rfl

theorem bk_setStatus_property (bookingId : Nat) (st : BookingStatus) (x : Booking) :
    (setStatus bookingId st x).property = x.property := by
  unfold setStatus; split <;> rfl

theorem setStatus_scheduledDate (bookingId : Nat) (st : BookingStatus) (x : Booking) :
    (setStatus bookingId st x).scheduledDate = x.scheduledDate := by
  unfold setStatus; split <;> rfl

theorem setStatus_durationMinutes (bookingId : Nat) (st : BookingStatus) (x : Booking) :
    (setStatus bookingId st x).durationMinutes = x.durationMinutes := by
  unfold setStatus; split <;> rfl

/-- A status write to a non-approved status never produces an approved
booking out of a non-approved one. -/
theorem setStatus_approved (bookingId : Nat) (st : BookingStatus)
    (hst : st.isApproved = false) (x : Booking) :
    (setStatus bookingId st x).status = .approved → x.status = .approved := by
  unfold setStatus
  split
  · intro h
    have : st = .approved := h
    rw [this] at hst
    exact absurd hst (by simp [BookingStatus.isApproved])
  · exact id

/-- Document identities are untouched by a map that preserves them. -/
theorem map_booking_id_eq (g : Booking → Booking) (hid : ∀ x, (g x).id = x.id) :
    ∀ l : List Booking, (l.map g).map Booking.id = l.map Booking.id
  | [] => rfl
  | x :: l => by
    simp only [List.map_cons, hid x, map_booking_id_eq g hid l]

/-- Inversion of a successful `schedule`. -/
theorem schedule_ok {s : State} {b p : Nat} {d dur now : Int} {s' : State} {bk : Booking}
    (h : schedule s b p d dur now = .ok (s', bk)) :
    s' = ⟨⟨s.nextId, p, b, d, dur, .pending⟩ :: s.bookings, s.nextId + 1⟩ ∧
      bk = ⟨s.nextId, p, b, d, dur, .pending⟩ := by
  unfold schedule at h
  split at h
  · cases h
  · have hpair := Except.ok.inj h
    exact ⟨(congrArg Prod.fst hpair).symm, (congrArg Prod.snd hpair).symm⟩

/-- Inversion of a successful `approve`: the booking was pending, the
conflict check passed, and the status write happened. -/
theorem approve_ok {env : Nat → Nat → Bool} {s : State} {bookingId actor : Nat} {s' : State}
    (h : approve env s bookingId actor = .ok s') :
    ∃ b, findBooking s bookingId = some b ∧ b.status = .pending ∧
      hasApprovedConflict s.bookings b = false ∧
      s' = ⟨s.bookings.map (setStatus bookingId .approved), s.nextId⟩ := by
  unfold approve at h
  split at h
  · cases h
  · rename_i b hfind
    split at h
    · cases h
    · split at h
      · cases h
      · split at h
        · cases h
        · rename_i hpend _ hconf
          exact ⟨b, hfind, not_not.mp hpend, Bool.of_not_eq_true hconf,
            (Except.ok.inj h).symm⟩

/-- Inversion of a successful `reject`. -/
theorem bk_reject_ok {s : State} {bookingId actor : Nat} {s' : State}
    (h : reject s bookingId actor = .ok s') :
    s' = ⟨s.bookings.map (setStatus bookingId .rejected), s.nextId⟩ := by
  unfold reject at h
  split at h
  · cases h
  · split at h
    · cases h
    · exact (Except.ok.inj h).symm

/-- Inversion of a successful `cancel`. -/
theorem cancel_ok {s : State} {bookingId actor : Nat} {s' : State}
    (h : cancel s bookingId actor = .ok s') :
    s' = ⟨s.bookings.map (setStatus bookingId .cancelled), s.nextId⟩ := by
  unfold cancel at h
  split at h
  · cases h
  · split at h
    · cases h
    · exact (Except.ok.inj h).symm

/-- Inversion of a successful `complete`. -/
theorem complete_ok {s : State} {bookingId actor : Nat} {now : Int} {s' : State}
    (h : complete s bookingId actor now = .ok s') :
    s' = ⟨s.bookings.map (setStatus bookingId .completed), s.nextId⟩ := by
  unfold complete at h
  split at h
  · cases h
  · split at h
    · cases h
    · split at h
      · cases h
      · exact (Except.ok.inj h).symm

theorem setStatus_status_of_ne (bookingId : Nat) (st : BookingStatus) (x : Booking)
    (hx : x.id ≠ bookingId) : (setStatus bookingId st x).status = x.status := by
  unfold setStatus
  rw [if_neg (by simp [hx])]

/-- Well-formedness of the store after a successful `schedule`: the new
booking is pending, so approved slots are untouched. -/
theorem wf_schedule (s : State) (b p : Nat) (d dur : Int) (h : WellFormed s) :
    WellFormed ⟨⟨s.nextId, p, b, d, dur, .pending⟩ :: s.bookings, s.nextId + 1⟩ := by
  obtain ⟨hbound, hnodup, hdisj⟩ := h
  refine ⟨?_, ?_, ?_⟩
  · intro x hx
    rcases List.mem_cons.mp hx with rfl | hx'
    · exact Nat.lt_succ_self _
    · exact Nat.lt_succ_of_lt (hbound x hx')
  · show (Booking.id ⟨s.nextId, p, b, d, dur, .pending⟩ :: s.bookings.map Booking.id).Nodup
    rw [List.nodup_cons]
    refine ⟨fun hmem => ?_, hnodup⟩
    obtain ⟨x, hx, hxid⟩ := List.mem_map.mp hmem
    exact absurd hxid (Nat.ne_of_lt (hbound x hx))
  · intro b1 h1 b2 h2 hid12 hprop hs1 hs2
    rcases List.mem_cons.mp h1 with rfl | h1'
    · exact absurd hs1 (by simp)
    · rcases List.mem_cons.mp h2 with rfl | h2'
      · exact absurd hs2 (by simp)
      · exact hdisj b1 h1' b2 h2' hid12 hprop hs1 hs2

/-- Well-formedness survives a status write to any non-approved status. -/
theorem wf_setStatus (s : State) (bookingId : Nat) (st : BookingStatus)
    (hst : st.isApproved = false) (h : WellFormed s) :
    WellFormed ⟨s.bookings.map (setStatus bookingId st), s.nextId⟩ := by
  obtain ⟨hbound, hnodup, hdisj⟩ := h
  refine ⟨?_, ?_, ?_⟩
  · intro x hx
    obtain ⟨y, hy, rfl⟩ := List.mem_map.mp hx
    rw [bk_setStatus_id]
    exact hbound y hy
  · show ((s.bookings.map (setStatus bookingId st)).map Booking.id).Nodup
    rw [map_booking_id_eq _ (bk_setStatus_id bookingId st)]
    exact hnodup
  · intro b1 h1 b2 h2 hid12 hprop hs1 hs2
    obtain ⟨x1, hx1, rfl⟩ := List.mem_map.mp h1
    obtain ⟨x2, hx2, rfl⟩ := List.mem_map.mp h2
    rw [bk_setStatus_id, bk_setStatus_id] at hid12
    rw [bk_setStatus_property, bk_setStatus_property] at hprop
    rw [Booking.overlaps_congr (setStatus_scheduledDate bookingId st x1)
      (setStatus_durationMinutes bookingId st x1) (setStatus_scheduledDate bookingId st x2)
      (setStatus_durationMinutes bookingId st x2)]
    exact hdisj x1 hx1 x2 hx2 hid12 hprop
      (setStatus_approved bookingId st hst x1 hs1)
      (setStatus_approved bookingId st hst x2 hs2)

/-- Well-formedness of the store after a successful `approve`: the guard of
spec section 4.2 excludes every overlapping approved slot, so approving the
pending booking keeps approved slots disjoint. -/
theorem wf_approve (s : State) (bookingId : Nat) {b : Booking}
    (hfind : findBooking s bookingId = some b)
    (hconf : hasApprovedConflict s.bookings b = false) (h : WellFormed s) :
    WellFormed ⟨s.bookings.map (setStatus bookingId .approved), s.nextId⟩ := by
  obtain ⟨hbound, hnodup, hdisj⟩ := h
  have hb_mem : b ∈ s.bookings := List.mem_of_find?_eq_some hfind
  have hb_id : b.id = bookingId := by
    have := List.find?_some hfind
    simpa using this
  unfold hasApprovedConflict at hconf
  rw [List.any_eq_false] at hconf
  refine ⟨?_, ?_, ?_⟩
  · intro x hx
    obtain ⟨y, hy, rfl⟩ := List.mem_map.mp hx
    rw [bk_setStatus_id]
    exact hbound y hy
  · show ((s.bookings.map (setStatus bookingId .approved)).map Booking.id).Nodup
    rw [map_booking_id_eq _ (bk_setStatus_id bookingId .approved)]
    exact hnodup
  · intro b1 h1 b2 h2 hid12 hprop hs1 hs2
    obtain ⟨x1, hx1, rfl⟩ := List.mem_map.mp h1
    obtain ⟨x2, hx2, rfl⟩ := List.mem_map.mp h2
    rw [bk_setStatus_id, bk_setStatus_id] at hid12
    rw [bk_setStatus_property, bk_setStatus_property] at hprop
    rw [Booking.overlaps_congr (setStatus_scheduledDate bookingId .approved x1)
      (setStatus_durationMinutes bookingId .approved x1)
      (setStatus_scheduledDate bookingId .approved x2)
      (setStatus_durationMinutes bookingId .approved x2)]
    by_cases h1id : x1.id = bookingId
    · have hx1b : x1 = b := eq_of_key_eq Booking.id hnodup hx1 hb_mem (h1id.trans hb_id.symm)
      have h2id : x2.id ≠ bookingId := fun hh => hid12 (h1id.trans hh.symm)
      have hx2st : x2.status = .approved := by
        rw [setStatus_status_of_ne bookingId .approved x2 h2id] at hs2
        exact hs2
      by_contra hov
      apply hconf x2 hx2
      have hov' : x1.overlaps x2 = true := by
        cases hcase : x1.overlaps x2
        · exact absurd hcase hov
        · rfl
      simp only [Bool.and_eq_true, bne_iff_ne, beq_iff_eq, ne_eq]
      refine ⟨⟨⟨fun hh => h2id (hh.trans hb_id), ?_⟩, ?_⟩, ?_⟩
      · rw [← hx1b, ← hprop]
      · simp [BookingStatus.isApproved, hx2st]
      · rw [Booking.overlaps_comm, ← hx1b]
        exact hov'
    · by_cases h2id : x2.id = bookingId
      · have hx2b : x2 = b := eq_of_key_eq Booking.id hnodup hx2 hb_mem (h2id.trans hb_id.symm)
        have hx1st : x1.status = .approved := by
          rw [setStatus_status_of_ne bookingId .approved x1 h1id] at hs1
          exact hs1
        by_contra hov
        apply hconf x1 hx1
        have hov' : x1.overlaps x2 = true := by
          cases hcase : x1.overlaps x2
          · exact absurd hcase hov
          · rfl
        simp only [Bool.and_eq_true, bne_iff_ne, beq_iff_eq, ne_eq]
        refine ⟨⟨⟨fun hh => h1id (hh.trans hb_id), ?_⟩, ?_⟩, ?_⟩
        · rw [hprop, ← hx2b]
        · simp [BookingStatus.isApproved, hx1st]
        · rw [← hx2b]
          exact hov'
      · rw [setStatus_status_of_ne bookingId .approved x1 h1id] at hs1
        rw [setStatus_status_of_ne bookingId .approved x2 h2id] at hs2
        exact hdisj x1 hx1 x2 hx2 hid12 hprop hs1 hs2

/-- Every booking-engine operation preserves well-formedness of the
store. -/
theorem bk_wf_applyOp (env : Nat → Nat → Bool) (s : State) (op : Op)
    (h : WellFormed s) : WellFormed (applyOp env s op) := by
  cases op with
  | schedule b p d dur now =>
    simp only [applyOp]
    split
    · rename_i s' bk heq
      obtain ⟨rfl, _⟩ := schedule_ok heq
      exact wf_schedule s b p d dur h
    · exact h
  | approve bid act =>
    simp only [applyOp]
    split
    · rename_i s' heq
      obtain ⟨b, hfind, _, hconf, rfl⟩ := approve_ok heq
      exact wf_approve s bid hfind hconf h
    · exact h
  | reject bid act =>
    simp only [applyOp]
    split
    · rename_i s' heq
      obtain rfl := bk_reject_ok heq
      exact wf_setStatus s bid .rejected rfl h
    · exact h
  | cancel bid act =>
    simp only [applyOp]
    split
    · rename_i s' heq
      obtain rfl := cancel_ok heq
      exact wf_setStatus s bid .cancelled rfl h
    · exact h
  | complete bid act now =>
    simp only [applyOp]
    split
    · rename_i s' heq
      obtain rfl := complete_ok heq
      exact wf_setStatus s bid .completed rfl h
    · exact h

/-- The empty booking store is well-formed. -/
theorem bk_wf_init : WellFormed init := by
  refine ⟨?_, List.nodup_nil, ?_⟩
  · intro x hx
    cases hx
  · intro b1 h1
    cases h1

/-- Every store reachable by a sequence of booking-engine operations is
well-formed. -/
theorem bk_wf_run (env : Nat → Nat → Bool) (ops : List Op) : WellFormed (run env ops) := by
  suffices h : ∀ (l : List Op) (s : State), WellFormed s → WellFormed (l.foldl (applyOp env) s) by
    exact h ops init bk_wf_init
  intro l
  induction l with
  | nil => exact fun s hs => hs
  | cons op l ih =>
    intro s hs
    exact ih (applyOp env s op) (bk_wf_applyOp env s op hs)

end BookingEngine

/-! ## Rating-aggregator lemmas -/

namespace RatingEngine

theorem isActiveReviewOf_eq {u p : Nat} {r : Review} (h : isActiveReviewOf u p r = true) :
    r.user = u ∧ r.property = p ∧ r.isDeleted = false := by
  unfold isActiveReviewOf at h
  simp only [Bool.and_eq_true, beq_iff_eq, Bool.not_eq_true'] at h
  exact ⟨h.1.1, h.1.2, h.2⟩

theorem activeReviewsOf_cons (r : Review) (l : List Review) (q : Nat) :
    activeReviewsOf (r :: l) q =
      if r.property == q && !r.isDeleted then r :: activeReviewsOf l q
      else activeReviewsOf l q := by
  unfold activeReviewsOf
  rw [List.filter_cons]

theorem ratingSum_cons (r : Review) (l : List Review) (q : Nat) :
    ratingSum (r :: l) q =
      (if r.property == q && !r.isDeleted then (r.rating : ℚ) else 0) + ratingSum l q := by
  unfold ratingSum
  rw [activeReviewsOf_cons]
  split
  · rw [List.map_cons, List.sum_cons]
  · rw [zero_add]

theorem ratingSum_zero {l : List Review} {q : Nat}
    (h : (activeReviewsOf l q).length = 0) : ratingSum l q = 0 := by
  unfold ratingSum
  rw [List.length_eq_zero] at h
  rw [h]
  rfl

/-- Editing a review in place changes no active-review count. -/
theorem editReview_count (u p : Nat) (v : Int) (c : String) :
    ∀ (l : List Review) (q : Nat),
      (activeReviewsOf (editReview u p v c l) q).length = (activeReviewsOf l q).length
  | [], _ => rfl
  | r :: l, q => by
    unfold editReview
    split
    · rw [activeReviewsOf_cons, activeReviewsOf_cons]
      dsimp only
      split
      · rfl
      · rfl
    · rw [activeReviewsOf_cons, activeReviewsOf_cons]
      split
      · simp only [List.length_cons, editReview_count u p v c l q]
      · exact editReview_count u p v c l q

/-- Editing the found review shifts the property's rating sum by exactly
the delta newRating − oldRating and no other sum. -/
theorem editReview_sum (u p : Nat) (v : Int) (c : String) :
    ∀ (l : List Review) {old : Review}, l.find? (isActiveReviewOf u p) = some old →
    ∀ q, ratingSum (editReview u p v c l) q =
      if q = p then ratingSum l q + ((v : ℚ) - (old.rating : ℚ)) else ratingSum l q
  | [], old, hfind => by cases hfind
  | r :: l, old, hfind => by
    intro q
    unfold editReview
    by_cases hpred : isActiveReviewOf u p r = true
    · rw [List.find?_cons_of_pos _ hpred] at hfind
      obtain rfl : r = old := Option.some.inj hfind
      rw [if_pos hpred]
      obtain ⟨hu, hp, hdel⟩ := isActiveReviewOf_eq hpred
      rw [ratingSum_cons, ratingSum_cons]
      dsimp only
      rw [hp, hdel]
      by_cases hq : q = p
      · subst hq
        simp only [beq_self_eq_true, Bool.not_false, Bool.and_self, if_true, if_pos rfl]
        ring
      · have hpq : (p == q) = false := by simpa using Ne.symm hq
        simp only [hpq, Bool.not_false, Bool.and_true, Bool.false_eq_true, if_false, if_neg hq]
    · rw [List.find?_cons_of_neg _ hpred] at hfind
      rw [if_neg hpred]
      rw [ratingSum_cons, ratingSum_cons, editReview_sum u p v c l hfind q]
      by_cases hq : q = p
      · rw [if_pos hq, if_pos hq]
        ring
      · rw [if_neg hq, if_neg hq]

/-- Soft-deleting the found review drops exactly one active review of its
property and no other. -/
theorem markDeleted_count (u p : Nat) :
    ∀ (l : List Review) {old : Review}, l.find? (isActiveReviewOf u p) = some old →
    ∀ q, (activeReviewsOf l q).length =
      (activeReviewsOf (markDeleted u p l) q).length + (if q = p then 1 else 0)
  | [], old, hfind => by cases hfind
  | r :: l, old, hfind => by
    intro q
    unfold markDeleted
    by_cases hpred : isActiveReviewOf u p r = true
    · rw [List.find?_cons_of_pos _ hpred] at hfind
      obtain rfl : r = old := Option.some.inj hfind
      obtain ⟨hu, hp, hdel⟩ := isActiveReviewOf_eq hpred
      rw [if_pos hpred]
      rw [activeReviewsOf_cons, activeReviewsOf_cons]
      dsimp only
      rw [hp, hdel]
      by_cases hq : q = p
      · subst hq
        simp only [beq_self_eq_true, Bool.not_false, Bool.and_self, Bool.and_true,
          Bool.not_true, Bool.and_false, if_true, Bool.false_eq_true, if_false, if_pos rfl,
          List.length_cons]
      · have hpq : (p == q) = false := by simpa using Ne.symm hq
        simp only [hpq, Bool.not_false, Bool.not_true, Bool.and_true, Bool.and_false,
          Bool.false_eq_true, if_false, if_neg hq]
        omega
    · rw [List.find?_cons_of_neg _ hpred] at hfind
      rw [if_neg hpred]
      rw [activeReviewsOf_cons, activeReviewsOf_cons]
      split
      · rw [List.length_cons, List.length_cons,
          markDeleted_count u p l hfind q]
        omega
      · exact markDeleted_count u p l hfind q

/-- Soft-deleting the found review lowers its property's rating sum by
exactly its rating and no other sum. -/
theorem markDeleted_sum (u p : Nat) :
    ∀ (l : List Review) {old : Review}, l.find? (isActiveReviewOf u p) = some old →
    ∀ q, ratingSum (markDeleted u p l) q =
      if q = p then ratingSum l q - (old.rating : ℚ) else ratingSum l q
  | [], old, hfind => by cases hfind
  | r :: l, old, hfind => by
    intro q
    unfold markDeleted
    by_cases hpred : isActiveReviewOf u p r = true
    · rw [List.find?_cons_of_pos _ hpred] at hfind
      obtain rfl : r = old := Option.some.inj hfind
      obtain ⟨hu, hp, hdel⟩ := isActiveReviewOf_eq hpred
      rw [if_pos hpred]
      rw [ratingSum_cons, ratingSum_cons]
      dsimp only
      rw [hp, hdel]
      by_cases hq : q = p
      · subst hq
        simp only [beq_self_eq_true, Bool.not_false, Bool.not_true, Bool.and_self,
          Bool.and_true, Bool.and_false, if_true, Bool.false_eq_true, if_false, if_pos rfl]
        ring
      · have hpq : (p == q) = false := by simpa using Ne.symm hq
        simp only [hpq, Bool.not_false, Bool.not_true, Bool.and_true, Bool.and_false,
          Bool.false_eq_true, if_false, if_neg hq]
    · rw [List.find?_cons_of_neg _ hpred] at hfind
      rw [if_neg hpred]
      rw [ratingSum_cons, ratingSum_cons, markDeleted_sum u p l hfind q]
      by_cases hq : q = p
      · rw [if_pos hq, if_pos hq]
        ring
      · rw [if_neg hq, if_neg hq]

/-- The review found active for (user, property) witnesses a positive
active-review count of the property. -/
theorem count_pos_of_find {l : List Review} {u p : Nat} {old : Review}
    (hfind : l.find? (isActiveReviewOf u p) = some old) :
    (activeReviewsOf l p).length ≠ 0 := by
  have hmem : old ∈ l := List.mem_of_find?_eq_some hfind
  obtain ⟨hu, hp, hdel⟩ := isActiveReviewOf_eq (List.find?_some hfind)
  have : old ∈ activeReviewsOf l p := by
    unfold activeReviewsOf
    exact List.mem_filter.mpr ⟨hmem, by simp [hp, hdel]⟩
  intro hlen
  rw [List.length_eq_zero] at hlen
  rw [hlen] at this
  cases this

/-- Inversion of a successful `upsertReview`: the rating was valid and the
write was either an edit of the found review or a creation. -/
theorem upsertReview_ok {s : State} {u p : Nat} {v : Int} {c : String} {s' : State}
    (h : upsertReview s u p v c = .ok s') :
    ¬(v < 1 ∨ 5 < v) ∧
      ((∃ old, findReview s.reviews u p = some old ∧
        s' = ⟨editReview u p v c s.reviews, s.nextId, s.ratingsCount,
          fun q => if q = p then
              (s.averageRating p * (s.ratingsCount p : ℚ) + ((v : ℚ) - (old.rating : ℚ))) /
                (s.ratingsCount p : ℚ)
            else s.averageRating q⟩) ∨
      (findReview s.reviews u p = none ∧
        s' = ⟨⟨s.nextId, p, u, v, c, false⟩ :: s.reviews, s.nextId + 1,
          fun q => if q = p then s.ratingsCount p + 1 else s.ratingsCount q,
          fun q => if q = p then
              (s.averageRating p * (s.ratingsCount p : ℚ) + (v : ℚ)) /
                ((s.ratingsCount p : ℚ) + 1)
            else s.averageRating q⟩)) := by
  unfold upsertReview at h
  split at h
  · cases h
  · rename_i hv
    split at h
    · rename_i old hfind
      exact ⟨hv, .inl ⟨old, hfind, (Except.ok.inj h).symm⟩⟩
    · rename_i hfind
      exact ⟨hv, .inr ⟨hfind, (Except.ok.inj h).symm⟩⟩

/-- Inversion of a successful `removeReview`. -/
theorem removeReview_ok {s : State} {u p : Nat} {s' : State}
    (h : removeReview s u p = .ok s') :
    ∃ old, findReview s.reviews u p = some old ∧
      s' = ⟨markDeleted u p s.reviews, s.nextId,
        fun q => if q = p then s.ratingsCount p - 1 else s.ratingsCount q,
        fun q => if q = p then
            if s.ratingsCount p - 1 = 0 then 0
            else (s.averageRating p * (s.ratingsCount p : ℚ) - (old.rating : ℚ)) /
              ((s.ratingsCount p - 1 : Nat) : ℚ)
          else s.averageRating q⟩ := by
  unfold removeReview at h
  split at h
  · cases h
  · rename_i old hfind
    exact ⟨old, hfind, (Except.ok.inj h).symm⟩

/-- Every rating-aggregator operation preserves consistency of the
denormalized aggregates with the review set. -/
theorem consistent_applyOp (s : State) (op : Op) (h : Consistent s) :
    Consistent (applyOp s op) := by
  cases op with
  | upsert u p v c =>
    simp only [applyOp]
    split
    · rename_i s' heq
      obtain ⟨hv, hcase⟩ := upsertReview_ok heq
      rcases hcase with ⟨old, hfind, rfl⟩ | ⟨hfind, rfl⟩
      · -- edit in place
        intro q
        dsimp only
        obtain ⟨hcnt, hprod, hzero⟩ := h q
        have hcnt_edit := editReview_count u p v c s.reviews q
        have hsum_edit := editReview_sum u p v c s.reviews hfind q
        by_cases hq : q = p
        · subst hq
          have hne : (s.ratingsCount q : ℚ) ≠ 0 := by
            rw [hcnt]
            exact_mod_cast count_pos_of_find hfind
          refine ⟨by rw [hcnt_edit]; exact hcnt, ?_, ?_⟩
          · rw [if_pos rfl, hsum_edit, if_pos rfl, div_mul_cancel₀ _ hne, hprod]
          · intro hc0
            exact absurd (hcnt ▸ hc0) (count_pos_of_find hfind)
        · refine ⟨by rw [hcnt_edit]; exact hcnt, ?_, ?_⟩
          · rw [if_neg hq, hsum_edit, if_neg hq, hprod]
          · intro hc0
            rw [if_neg hq]
            exact hzero hc0
      · -- creation
        intro q
        dsimp only
        obtain ⟨hcnt, hprod, hzero⟩ := h q
        by_cases hq : q = p
        · subst hq
          refine ⟨?_, ?_, ?_⟩
          · rw [if_pos rfl, activeReviewsOf_cons]
            rw [if_pos (by simp), List.length_cons, hcnt]
          · rw [if_pos rfl, if_pos rfl, ratingSum_cons, if_pos (by simp)]
            have hne : ((s.ratingsCount q : ℚ) + 1) ≠ 0 := by positivity
            rw [Nat.cast_add, Nat.cast_one, div_mul_cancel₀ _ hne, hprod]
            ring
          · intro hc0
            rw [if_pos rfl] at hc0
            cases hc0
        · refine ⟨?_, ?_, ?_⟩
          · rw [if_neg hq, activeReviewsOf_cons,
              if_neg (by simp [Ne.symm hq]), hcnt]
          · rw [if_neg hq, if_neg hq, ratingSum_cons,
              if_neg (by simp [Ne.symm hq]), zero_add, hprod]
          · intro hc0
            rw [if_neg hq] at hc0
            rw [if_neg hq]
            exact hzero hc0
    · exact h
  | remove u p =>
    simp only [applyOp]
    split
    · rename_i s' heq
      obtain ⟨old, hfind, rfl⟩ := removeReview_ok heq
      intro q
      dsimp only
      obtain ⟨hcnt, hprod, hzero⟩ := h q
      have hc_del := markDeleted_count u p s.reviews hfind q
      have hs_del := markDeleted_sum u p s.reviews hfind q
      by_cases hq : q = p
      · subst hq
        rw [if_pos rfl] at hc_del
        have hcnt2 : (activeReviewsOf (markDeleted u q s.reviews) q).length =
            s.ratingsCount q - 1 := by omega
        refine ⟨?_, ?_, ?_⟩
        · rw [if_pos rfl, hcnt2]
        · rw [if_pos rfl, if_pos rfl]
          by_cases hc0 : s.ratingsCount q - 1 = 0
          · rw [if_pos hc0, hc0, ratingSum_zero (hc0 ▸ hcnt2), Nat.cast_zero, zero_mul]
          · rw [if_neg hc0, hs_del, if_pos rfl,
              div_mul_cancel₀ _ (by exact_mod_cast hc0), hprod]
        · intro hc0
          rw [if_pos rfl] at hc0
          rw [if_pos rfl, if_pos hc0]
      · rw [if_neg hq] at hc_del
        refine ⟨?_, ?_, ?_⟩
        · rw [if_neg hq, hcnt]
          omega
        · rw [if_neg hq, if_neg hq, hs_del, if_neg hq, hprod]
        · intro hc0
          rw [if_neg hq] at hc0
          rw [if_neg hq]
          exact hzero hc0
    · exact h

/-- The empty review store is consistent. -/
theorem consistent_init : Consistent init := by
  intro q
  exact ⟨rfl, by simp [ratingSum, activeReviewsOf, init], fun _ => rfl⟩

/-- Every store reachable by a sequence of rating-aggregator operations is
consistent. -/
theorem consistent_run (ops : List Op) : Consistent (run ops) := by
  suffices h : ∀ (l : List Op) (s : State), Consistent s → Consistent (l.foldl applyOp s) by
    exact h ops init consistent_init
  intro l
  induction l with
  | nil => exact fun s hs => hs
  | cons op l ih =>
    intro s hs
    exact ih (applyOp s op) (consistent_applyOp s op hs)

end RatingEngine

/-! ## Favorite-engine lemmas -/

namespace FavoriteEngine

/-- Removing the (user, property) favorites from a collection lowers the
property's favorite count by exactly the number of such favorites and no
other count. -/
theorem remove_count (u p : Nat) : ∀ (l : List Favorite) (q : Nat),
    (favoritesOf (l.filter fun f => !(f.user == u && f.property == p)) q).length +
      (if q = p then (l.filter fun f => f.user == u && f.property == p).length else 0) =
    (favoritesOf l q).length
  | [], q => by
    by_cases hq : q = p
    · rw [if_pos hq]
      rfl
    · rw [if_neg hq]
      rfl
  | f :: l, q => by
    have ih := remove_count u p l q
    by_cases hA : (f.user == u && f.property == p) = true
    · have hnA : (!(f.user == u && f.property == p)) = false := by rw [hA]; rfl
      have hfp : f.property = p := by
        simp only [Bool.and_eq_true, beq_iff_eq] at hA
        exact hA.2
      unfold favoritesOf at ih ⊢
      simp only [List.filter_cons, hA, Bool.not_true, Bool.false_eq_true, if_false,
        eq_self_iff_true, if_true]
      by_cases hq : q = p
      · rw [if_pos hq] at ih ⊢
        have hB : (f.property == q) = true := by simp [hfp, hq]
        simp only [hB, if_true, List.length_cons]
        omega
      · rw [if_neg hq] at ih ⊢
        have hB : (f.property == q) = false := by simp [hfp, Ne.symm hq]
        simp only [hB, Bool.false_eq_true, if_false]
        omega
    · have hA' : (f.user == u && f.property == p) = false := Bool.of_not_eq_true hA
      have hnA : (!(f.user == u && f.property == p)) = true := by rw [hA']; rfl
      unfold favoritesOf at ih ⊢
      simp only [List.filter_cons, hA', Bool.not_false, Bool.false_eq_true, if_false,
        eq_self_iff_true, if_true]
      by_cases hB : (f.property == q) = true
      · simp only [hB, if_true, List.length_cons]
        by_cases hq : q = p
        · rw [if_pos hq] at ih ⊢
          omega
        · rw [if_neg hq] at ih ⊢
          omega
      · simp only [Bool.of_not_eq_true hB, Bool.false_eq_true, if_false]
        exact ih

/-- Inversion of a successful favorite add. -/
theorem add_ok {s : State} {u p : Nat} {s' : State} (h : add s u p = .ok s') :
    isFavorited s.favorites u p = false ∧
      s' = ⟨⟨u, p⟩ :: s.favorites,
        fun q => if q = p then s.favoritesCount p + 1 else s.favoritesCount q⟩ := by
  unfold add at h
  split at h
  · cases h
  · rename_i hfav
    exact ⟨Bool.of_not_eq_true hfav, (Except.ok.inj h).symm⟩

/-- Inversion of a successful favorite removal. -/
theorem remove_ok {s : State} {u p : Nat} {s' : State} (h : remove s u p = .ok s') :
    isFavorited s.favorites u p = true ∧
      s' = ⟨s.favorites.filter fun f => !(f.user == u && f.property == p),
        fun q => if q = p then s.favoritesCount p - 1 else s.favoritesCount q⟩ := by
  unfold remove at h
  split at h
  · rename_i hfav
    exact ⟨hfav, (Except.ok.inj h).symm⟩
  · cases h

/-- Every favorite-toggle operation preserves consistency of the counter
with the favorite set. -/
theorem fav_consistent_applyOp (s : State) (op : Op) (h : Consistent s) :
    Consistent (applyOp s op) := by
  obtain ⟨hcnt, huniq⟩ := h
  cases op with
  | add u p =>
    simp only [applyOp]
    split
    · rename_i s' heq
      obtain ⟨hfav, rfl⟩ := add_ok heq
      constructor
      · intro q
        dsimp only
        unfold favoritesOf
        rw [List.filter_cons]
        by_cases hq : q = p
        · rw [if_pos hq, if_pos (by simp [hq.symm]), List.length_cons]
          unfold favoritesOf at hcnt
          rw [hcnt p, hq]
        · rw [if_neg hq, if_neg (by simp [Ne.symm hq])]
          exact hcnt q
      · intro u' p'
        dsimp only
        rw [List.filter_cons]
        by_cases hpair : ((⟨u, p⟩ : Favorite).user == u' && (⟨u, p⟩ : Favorite).property == p') = true
        · have : u' = u ∧ p' = p := by
            simp only [Bool.and_eq_true, beq_iff_eq] at hpair
            exact ⟨hpair.1.symm, hpair.2.symm⟩
          obtain ⟨rfl, rfl⟩ := this
          rw [if_pos hpair, List.length_cons]
          have : (s.favorites.filter fun f => f.user == u' && f.property == p') = [] := by
            rw [List.filter_eq_nil_iff]
            intro f hf hpf
            unfold isFavorited at hfav
            rw [List.any_eq_false] at hfav
            exact hfav f hf hpf
          rw [this]
          exact Nat.le_refl 1
        · rw [if_neg hpair]
          exact huniq u' p'
    · exact ⟨hcnt, huniq⟩
  | remove u p =>
    simp only [applyOp]
    split
    · rename_i s' heq
      obtain ⟨hfav, rfl⟩ := remove_ok heq
      have hpairs : (s.favorites.filter fun f => f.user == u && f.property == p).length = 1 := by
        have hle := huniq u p
        have hge : (s.favorites.filter fun f => f.user == u && f.property == p).length ≠ 0 := by
          unfold isFavorited at hfav
          rw [List.any_eq_true] at hfav
          obtain ⟨f, hf, hpf⟩ := hfav
          intro hlen
          rw [List.length_eq_zero] at hlen
          have : f ∈ s.favorites.filter fun f => f.user == u && f.property == p :=
            List.mem_filter.mpr ⟨hf, hpf⟩
          rw [hlen] at this
          cases this
        omega
      constructor
      · intro q
        dsimp only
        have hrc := remove_count u p s.favorites q
        by_cases hq : q = p
        · rw [if_pos hq] at hrc ⊢
          rw [hpairs] at hrc
          unfold favoritesOf at hrc hcnt ⊢
          rw [hq] at hrc ⊢
          rw [hcnt p]
          omega
        · rw [if_neg hq] at hrc ⊢
          unfold favoritesOf at hrc hcnt ⊢
          rw [hcnt q]
          omega
      · intro u' p'
        dsimp only
        calc ((s.favorites.filter fun f => !(f.user == u && f.property == p)).filter
              fun f => f.user == u' && f.property == p').length
            ≤ (s.favorites.filter fun f => f.user == u' && f.property == p').length :=
              List.Sublist.length_le (List.Sublist.filter _ (List.filter_sublist s.favorites))
          _ ≤ 1 := huniq u' p'
    · exact ⟨hcnt, huniq⟩

/-- The empty favorite store is consistent. -/
theorem fav_consistent_init : Consistent init := by
  constructor
  · intro q
    rfl
  · intro u p
    exact Nat.le_succ 0

/-- Every store reachable by a sequence of favorite-toggle operations is
consistent. -/
theorem fav_consistent_run (ops : List Op) : Consistent (run ops) := by
  suffices h : ∀ (l : List Op) (s : State), Consistent s → Consistent (l.foldl applyOp s) by
    exact h ops init fav_consistent_init
  intro l
  induction l with
  | nil => exact fun s hs => hs
  | cons op l ih =>
    intro s hs
    exact ih (applyOp s op) (fav_consistent_applyOp s op hs)

end FavoriteEngine

/-! ## Further offer-engine lemmas for the state machine -/

/-- A non-terminal offer status is pending or countered. -/
theorem OfferStatus.pending_or_countered {s : OfferStatus} (h : s.isTerminal = false) :
    s = .pending ∨ s = .countered := by
  cases s
  · exact Or.inl rfl
  · exact Or.inr rfl
  · cases h
  · cases h
  · cases h

namespace OfferEngine

theorem counterUpdate_isDeleted (offerId : Nat) (a e : Int) (x : Offer) :
    (counterUpdate offerId a e x).isDeleted = x.isDeleted := by
  unfold counterUpdate; split <;> rfl

theorem setStatus_isDeleted (offerId : Nat) (st : OfferStatus) (x : Offer) :
    (setStatus offerId st x).isDeleted = x.isDeleted := by
  unfold setStatus; split <;> rfl

theorem acceptUpdate_isDeleted (offerId p : Nat) (x : Offer) :
    (acceptUpdate offerId p x).isDeleted = x.isDeleted := by
  unfold acceptUpdate
  split
  · rfl
  · split <;> rfl

/-- The lookup of the written offer after a per-document write that
preserves identity and the deletion flag. -/
theorem findOffer_map (s : State) (offerId : Nat) (g : Offer → Offer)
    (hid : ∀ x, (g x).id = x.id) (hdel : ∀ x, (g x).isDeleted = x.isDeleted)
    {o : Offer} (hfind : findOffer s offerId = some o) :
    findOffer ⟨s.offers.map g, s.nextId⟩ offerId = some (g o) := by
  unfold findOffer at hfind ⊢
  exact find?_map_of_pred_eq _ g (fun x => by rw [hid, hdel]) hfind

/-- The offer found by a lookup carries the looked-up identity and is not
soft-deleted. -/
theorem findOffer_facts {s : State} {offerId : Nat} {o : Offer}
    (hfind : findOffer s offerId = some o) :
    o.id = offerId ∧ o.isDeleted = false ∧ o ∈ s.offers := by
  unfold findOffer at hfind
  have hmem := List.mem_of_find?_eq_some hfind
  have hpred := List.find?_some hfind
  simp only [Bool.and_eq_true, beq_iff_eq, Bool.not_eq_true'] at hpred
  exact ⟨hpred.1, hpred.2, hmem⟩

end OfferEngine

/-! ## Claims -/

/-- C1: for every property and every buyer, at every observed instant at
most one offer for the (buyer, property) pair has status in
pending/countered and is not soft-deleted; this holds after any sequence of
offer-engine operations (create, counter, accept, reject, withdraw, soft
delete) from the empty store, under any ownership environment. -/
theorem claim_C1 (env : Nat → Nat → Bool) (ops : List OfferEngine.Op)
    (buyer property : Nat) :
    (OfferEngine.activeFor (OfferEngine.run env ops).offers buyer property).length ≤ 1 :=
  (OfferEngine.wf_run env ops).2.2 buyer property

/-- C2: after any sequence of booking-engine operations no two distinct
approved bookings of one property overlap; the overlap test on half-open
intervals [s1,e1), [s2,e2) holds iff s1 < e2 and s2 < e1, so back-to-back
slots (e1 = s2) do not overlap; and approve fails with SlotConflict when
another approved booking on the same property overlaps the target. -/
theorem claim_C2 :
    (∀ (env : Nat → Nat → Bool) (ops : List BookingEngine.Op),
      ∀ b1 ∈ (BookingEngine.run env ops).bookings,
        ∀ b2 ∈ (BookingEngine.run env ops).bookings,
          b1.id ≠ b2.id → b1.property = b2.property → b1.status = .approved →
            b2.status = .approved → b1.overlaps b2 = false) ∧
    (∀ s1 e1 s2 e2 : Int, overlapsI s1 e1 s2 e2 = true ↔ (s1 < e2 ∧ s2 < e1)) ∧
    (∀ s1 e1 e2 : Int, overlapsI s1 e1 e1 e2 = false) ∧
    (∀ (env : Nat → Nat → Bool) (s : BookingEngine.State) (bookingId actor : Nat)
        (b : Booking),
      BookingEngine.findBooking s bookingId = some b → b.status = .pending →
        env actor b.property = true →
        BookingEngine.hasApprovedConflict s.bookings b = true →
        BookingEngine.approve env s bookingId actor = .error .SlotConflict) := by
  refine ⟨fun env ops => (BookingEngine.bk_wf_run env ops).2.2, ?_, ?_, ?_⟩
  · intro s1 e1 s2 e2
    simp [overlapsI]
  · intro s1 e1 e2
    simp [overlapsI]
  · intro env s bookingId actor b hfind hpend henv hconf
    unfold BookingEngine.approve
    simp only [hfind]
    rw [if_neg (fun hh => hh hpend), if_neg (by simp [henv]), if_pos hconf]

/-- Witness for C2: the spec section 8 scenario — two tour requests at
10:00 and 10:30 for 60 minutes on one property, the 10:00 one approved;
approving the 10:30 one fails with SlotConflict. -/
theorem claim_C2_witness :
    BookingEngine.approve (fun _ _ => true)
      ⟨[⟨1, 2, 1, 630, 60, .pending⟩, ⟨0, 2, 1, 600, 60, .approved⟩], 2⟩ 1 9 =
      .error .SlotConflict :=
  claim_C2.2.2.2 (fun _ _ => true)
    ⟨[⟨1, 2, 1, 630, 60, .pending⟩, ⟨0, 2, 1, 600, 60, .approved⟩], 2⟩ 1 9
    ⟨1, 2, 1, 630, 60, .pending⟩ (by decide) rfl rfl (by decide)

/-- C3: after any sequence of review create/edit/delete operations, for
every property the stored ratingsCount is the number of non-deleted
reviews, averageRating times ratingsCount equals the sum of their ratings,
averageRating is 0 when the count is 0, and averageRating equals sum/count
(division by a zero count never occurs: the exposed value is then 0). -/
theorem claim_C3 (ops : List RatingEngine.Op) (p : Nat) :
    (RatingEngine.run ops).ratingsCount p =
        (RatingEngine.activeReviewsOf (RatingEngine.run ops).reviews p).length ∧
      (RatingEngine.run ops).averageRating p * ((RatingEngine.run ops).ratingsCount p : ℚ) =
        RatingEngine.ratingSum (RatingEngine.run ops).reviews p ∧
      ((RatingEngine.run ops).ratingsCount p = 0 → (RatingEngine.run ops).averageRating p = 0) ∧
      (RatingEngine.run ops).averageRating p =
        RatingEngine.ratingSum (RatingEngine.run ops).reviews p /
          ((RatingEngine.run ops).ratingsCount p : ℚ) := by
  obtain ⟨hcnt, hprod, hzero⟩ := RatingEngine.consistent_run ops p
  refine ⟨hcnt, hprod, hzero, ?_⟩
  by_cases hc : (RatingEngine.run ops).ratingsCount p = 0
  · have hlen : (RatingEngine.activeReviewsOf (RatingEngine.run ops).reviews p).length = 0 := by
      rw [← hcnt]
      exact hc
    rw [RatingEngine.ratingSum_zero hlen, hzero hc, hc, Nat.cast_zero, div_zero]
  · rw [eq_div_iff (by exact_mod_cast hc)]
    exact hprod

/-- C4: the offer status machine allows exactly the transitions
pending/countered → countered (counter), → accepted (accept), → rejected
(reject) and → withdrawn (withdraw): a successful operation starts from
pending or countered and writes the operation's target status, each of the
eight allowed transitions is realizable, and every transition attempt
(counter, accept, reject, withdraw) on an offer in a terminal state returns
the typed failure InvalidTransition — reported, never silently ignored. -/
theorem claim_C4 :
    (∀ (env : Nat → Nat → Bool) (s : OfferEngine.State) (offerId actor : Nat)
        (newAmount newExpiresAt : Int) (o : Offer),
      OfferEngine.findOffer s offerId = some o → o.status.isTerminal = true →
        OfferEngine.counter env s offerId actor newAmount newExpiresAt =
            .error .InvalidTransition ∧
          OfferEngine.accept env s offerId actor = .error .InvalidTransition ∧
          OfferEngine.reject env s offerId actor = .error .InvalidTransition ∧
          OfferEngine.withdraw s offerId actor = .error .InvalidTransition) ∧
    (∀ (env : Nat → Nat → Bool) (s : OfferEngine.State) (offerId actor : Nat)
        (newAmount newExpiresAt : Int) (o : Offer) (s' : OfferEngine.State),
      OfferEngine.findOffer s offerId = some o →
        (OfferEngine.counter env s offerId actor newAmount newExpiresAt = .ok s' →
          (o.status = .pending ∨ o.status = .countered) ∧
            OfferEngine.findOffer s' offerId =
              some { o with status := .countered, amount := newAmount, expiresAt := newExpiresAt }) ∧
          (OfferEngine.accept env s offerId actor = .ok s' →
            (o.status = .pending ∨ o.status = .countered) ∧
              OfferEngine.findOffer s' offerId = some { o with status := .accepted }) ∧
          (OfferEngine.reject env s offerId actor = .ok s' →
            (o.status = .pending ∨ o.status = .countered) ∧
              OfferEngine.findOffer s' offerId = some { o with status := .rejected }) ∧
          (OfferEngine.withdraw s offerId actor = .ok s' →
            (o.status = .pending ∨ o.status = .countered) ∧
              OfferEngine.findOffer s' offerId = some { o with status := .withdrawn })) ∧
    (OfferEngine.counter (fun _ _ => true) ⟨[⟨0, 1, 1, 5, .pending, 0, false⟩], 1⟩ 0 9 6 7 =
        .ok ⟨[⟨0, 1, 1, 6, .countered, 7, false⟩], 1⟩ ∧
      OfferEngine.accept (fun _ _ => true) ⟨[⟨0, 1, 1, 5, .pending, 0, false⟩], 1⟩ 0 9 =
        .ok ⟨[⟨0, 1, 1, 5, .accepted, 0, false⟩], 1⟩ ∧
      OfferEngine.reject (fun _ _ => true) ⟨[⟨0, 1, 1, 5, .pending, 0, false⟩], 1⟩ 0 9 =
        .ok ⟨[⟨0, 1, 1, 5, .rejected, 0, false⟩], 1⟩ ∧
      OfferEngine.withdraw ⟨[⟨0, 1, 1, 5, .pending, 0, false⟩], 1⟩ 0 1 =
        .ok ⟨[⟨0, 1, 1, 5, .withdrawn, 0, false⟩], 1⟩ ∧
      OfferEngine.counter (fun _ _ => true) ⟨[⟨0, 1, 1, 5, .countered, 0, false⟩], 1⟩ 0 9 6 7 =
        .ok ⟨[⟨0, 1, 1, 6, .countered, 7, false⟩], 1⟩ ∧
      OfferEngine.accept (fun _ _ => true) ⟨[⟨0, 1, 1, 5, .countered, 0, false⟩], 1⟩ 0 9 =
        .ok ⟨[⟨0, 1, 1, 5, .accepted, 0, false⟩], 1⟩ ∧
      OfferEngine.reject (fun _ _ => true) ⟨[⟨0, 1, 1, 5, .countered, 0, false⟩], 1⟩ 0 9 =
        .ok ⟨[⟨0, 1, 1, 5, .rejected, 0, false⟩], 1⟩ ∧
      OfferEngine.withdraw ⟨[⟨0, 1, 1, 5, .countered, 0, false⟩], 1⟩ 0 1 =
        .ok ⟨[⟨0, 1, 1, 5, .withdrawn, 0, false⟩], 1⟩) := by
  refine ⟨?_, ?_, rfl, rfl, rfl, rfl, rfl, rfl, rfl, rfl⟩
  · intro env s offerId actor newAmount newExpiresAt o hfind hterm
    refine ⟨?_, ?_, ?_, ?_⟩
    · unfold OfferEngine.counter
      simp [OfferEngine.findOffer] at hfind
      simp [hfind, OfferEngine.findOffer, hterm]
    · unfold OfferEngine.accept
      simp [OfferEngine.findOffer] at hfind
      simp [hfind, OfferEngine.findOffer, hterm]
    · unfold OfferEngine.reject
      simp [OfferEngine.findOffer] at hfind
      simp [hfind, OfferEngine.findOffer, hterm]
    · unfold OfferEngine.withdraw
      simp [OfferEngine.findOffer] at hfind
      simp [hfind, OfferEngine.findOffer, hterm]
  · intro env s offerId actor newAmount newExpiresAt o s' hfind
    have hgid : (o.id == offerId) = true := by
      simp [(OfferEngine.findOffer_facts hfind).1]
    refine ⟨?_, ?_, ?_, ?_⟩
    · intro hok
      obtain ⟨o', hfind', hterm', rfl⟩ := OfferEngine.counter_ok hok
      rw [hfind] at hfind'
      injection hfind' with ho
      subst ho
      refine ⟨OfferStatus.pending_or_countered hterm', ?_⟩
      rw [OfferEngine.findOffer_map s offerId _
        (OfferEngine.counterUpdate_id offerId newAmount newExpiresAt)
        (OfferEngine.counterUpdate_isDeleted offerId newAmount newExpiresAt) hfind]
      unfold OfferEngine.counterUpdate
      rw [if_pos hgid]
    · intro hok
      obtain ⟨o', hfind', hterm', henv, rfl⟩ := OfferEngine.accept_ok hok
      rw [hfind] at hfind'
      injection hfind' with ho
      subst ho
      refine ⟨OfferStatus.pending_or_countered hterm', ?_⟩
      rw [OfferEngine.findOffer_map s offerId _
        (OfferEngine.acceptUpdate_id offerId o.property)
        (OfferEngine.acceptUpdate_isDeleted offerId o.property) hfind]
      unfold OfferEngine.acceptUpdate
      rw [if_pos hgid]
    · intro hok
      obtain ⟨o', hfind', hterm', rfl⟩ := OfferEngine.reject_ok hok
      rw [hfind] at hfind'
      injection hfind' with ho
      subst ho
      refine ⟨OfferStatus.pending_or_countered hterm', ?_⟩
      rw [OfferEngine.findOffer_map s offerId _
        (OfferEngine.setStatus_id offerId .rejected)
        (OfferEngine.setStatus_isDeleted offerId .rejected) hfind]
      unfold OfferEngine.setStatus
      rw [if_pos hgid]
    · intro hok
      obtain ⟨o', hfind', hterm', rfl⟩ := OfferEngine.withdraw_ok hok
      rw [hfind] at hfind'
      injection hfind' with ho
      subst ho
      refine ⟨OfferStatus.pending_or_countered hterm', ?_⟩
      rw [OfferEngine.findOffer_map s offerId _
        (OfferEngine.setStatus_id offerId .withdrawn)
        (OfferEngine.setStatus_isDeleted offerId .withdrawn) hfind]
      unfold OfferEngine.setStatus
      rw [if_pos hgid]

/-- Witness for C4: every transition attempt on a concrete accepted
(terminal) offer fails with InvalidTransition. -/
theorem claim_C4_witness :
    OfferEngine.counter (fun _ _ => true) ⟨[⟨0, 1, 1, 5, .accepted, 0, false⟩], 1⟩ 0 9 6 7 =
        .error .InvalidTransition ∧
      OfferEngine.accept (fun _ _ => true) ⟨[⟨0, 1, 1, 5, .accepted, 0, false⟩], 1⟩ 0 9 =
        .error .InvalidTransition ∧
      OfferEngine.reject (fun _ _ => true) ⟨[⟨0, 1, 1, 5, .accepted, 0, false⟩], 1⟩ 0 9 =
        .error .InvalidTransition ∧
      OfferEngine.withdraw ⟨[⟨0, 1, 1, 5, .accepted, 0, false⟩], 1⟩ 0 1 =
        .error .InvalidTransition :=
  claim_C4.1 (fun _ _ => true) ⟨[⟨0, 1, 1, 5, .accepted, 0, false⟩], 1⟩ 0 9 6 7
    ⟨0, 1, 1, 5, .accepted, 0, false⟩ (by decide) rfl

/-- C5 (counterexample): the claim "create fails with InvalidAmount iff
amount ≤ 0" is false — with an active duplicate offer for (buyer 1,
property 1) present and amount 0 (≤ 0), create fails with
DuplicateActiveOffer, a different error than InvalidAmount, because the
duplicate check of spec section 4.1 is listed (and therefore evaluated)
before the amount check. -/
theorem claim_C5_counterexample :
    OfferEngine.create ⟨[⟨0, 1, 1, 100, .pending, 0, false⟩], 1⟩ 1 1 0 0 =
        .error .DuplicateActiveOffer ∧
      (0 : Int) ≤ 0 ∧
      OfferEngine.hasActiveOffer [⟨0, 1, 1, 100, .pending, 0, false⟩] 1 1 = true ∧
      EngineError.DuplicateActiveOffer ≠ EngineError.InvalidAmount :=
  ⟨rfl, by decide, by decide, by decide⟩

/-- C5 (amended): create(buyer, property, amount, expiresAt) fails with
DuplicateActiveOffer iff an existing non-soft-deleted offer for
(buyer, property) has status pending or countered; otherwise it fails with
InvalidAmount iff amount ≤ 0; otherwise it creates and returns a new offer
whose status is pending. -/
theorem claim_C5 (s : OfferEngine.State) (buyer property : Nat) (amount expiresAt : Int) :
    (OfferEngine.create s buyer property amount expiresAt = .error .DuplicateActiveOffer ↔
        OfferEngine.hasActiveOffer s.offers buyer property = true) ∧
      (OfferEngine.create s buyer property amount expiresAt = .error .InvalidAmount ↔
        (OfferEngine.hasActiveOffer s.offers buyer property = false ∧ amount ≤ 0)) ∧
      (OfferEngine.hasActiveOffer s.offers buyer property = false → 0 < amount →
        OfferEngine.create s buyer property amount expiresAt =
          .ok (⟨⟨s.nextId, property, buyer, amount, .pending, expiresAt, false⟩ :: s.offers,
            s.nextId + 1⟩, ⟨s.nextId, property, buyer, amount, .pending, expiresAt, false⟩)) := by
  unfold OfferEngine.create
  by_cases hdup : OfferEngine.hasActiveOffer s.offers buyer property = true
  · rw [if_pos hdup]
    refine ⟨⟨fun _ => hdup, fun _ => rfl⟩, ⟨fun hh => ?_, fun hh => ?_⟩, fun hh => ?_⟩
    · cases hh
    · rw [hh.1] at hdup
      cases hdup
    · rw [hh] at hdup
      cases hdup
  · have hdup' := Bool.of_not_eq_true hdup
    rw [if_neg hdup]
    by_cases hamt : amount ≤ 0
    · rw [if_pos hamt]
      refine ⟨⟨fun hh => ?_, fun hh => ?_⟩, ⟨fun _ => ⟨hdup', hamt⟩, fun _ => rfl⟩, fun _ hh => ?_⟩
      · cases hh
      · rw [hh] at hdup
        exact absurd rfl hdup
      · exact absurd hamt (not_le.mpr hh)
    · rw [if_neg hamt]
      refine ⟨⟨fun hh => ?_, fun hh => ?_⟩, ⟨fun hh => ?_, fun hh => ?_⟩, fun _ _ => rfl⟩
      · cases hh
      · rw [hh] at hdup
        exact absurd rfl hdup
      · cases hh
      · exact absurd hh.2 hamt

/-- Witness for C5: on the empty store, create(1, 2, 100, 50) succeeds and
returns the new pending offer. -/
theorem claim_C5_witness :
    OfferEngine.create ⟨[], 0⟩ 1 2 100 50 =
      .ok (⟨[⟨0, 2, 1, 100, .pending, 50, false⟩], 1⟩, ⟨0, 2, 1, 100, .pending, 50, false⟩) :=
  (claim_C5 ⟨[], 0⟩ 1 2 100 50).2.2 (by decide) (by decide)

/-- C6 (counterexample): a state in which two offers on one property are
simultaneously accepted is observable — buyer 1 offers on property 1 and
the offer is accepted, then buyer 2 offers on the same property (allowed:
the first offer is terminal) and that offer is also accepted, so the
reachable store holds two accepted offers on property 1. -/
theorem claim_C6_counterexample :
    ((OfferEngine.run (fun _ _ => true)
        [.create 1 1 100 0, .accept 0 9, .create 2 1 100 0, .accept 1 9]).offers.filter
          fun o => o.property == 1 && decide (o.status = .accepted)).length = 2 := by
  decide

/-- C6 (amended): when accept succeeds on an offer in status pending or
countered, that offer moves to accepted and, in the same atomic step, every
other active (pending or countered, not soft-deleted) offer on the same
property is transitioned to rejected; consequently, if no offer on the
property was accepted before the call, the accepted target is afterwards
the only accepted offer on the property — a single accept batch never
yields two simultaneously accepted offers. -/
theorem claim_C6 (env : Nat → Nat → Bool) (s : OfferEngine.State) (offerId actor : Nat)
    (o : Offer) (s' : OfferEngine.State)
    (hnodup : (s.offers.map Offer.id).Nodup)
    (hfind : OfferEngine.findOffer s offerId = some o)
    (hok : OfferEngine.accept env s offerId actor = .ok s') :
    (o.status = .pending ∨ o.status = .countered) ∧
      OfferEngine.findOffer s' offerId = some { o with status := .accepted } ∧
      (∀ x ∈ s.offers, x.id ≠ offerId → x.property = o.property →
        x.status.isActiveStatus = true → x.isDeleted = false →
        { x with status := OfferStatus.rejected } ∈ s'.offers) ∧
      ((∀ x ∈ s.offers, x.property = o.property → x.status ≠ .accepted) →
        ∀ y ∈ s'.offers, y.property = o.property → y.status = .accepted →
          y = { o with status := .accepted }) := by
  obtain ⟨o', hfind', hterm', henv, rfl⟩ := OfferEngine.accept_ok hok
  rw [hfind] at hfind'
  injection hfind' with ho
  subst ho
  obtain ⟨hoid, hodel, homem⟩ := OfferEngine.findOffer_facts hfind
  have hgid : (o.id == offerId) = true := by simp [hoid]
  refine ⟨OfferStatus.pending_or_countered hterm', ?_, ?_, ?_⟩
  · rw [OfferEngine.findOffer_map s offerId _
      (OfferEngine.acceptUpdate_id offerId o.property)
      (OfferEngine.acceptUpdate_isDeleted offerId o.property) hfind]
    unfold OfferEngine.acceptUpdate
    rw [if_pos hgid]
  · intro x hx hxid hxprop hxact hxdel
    have hwrite : OfferEngine.acceptUpdate offerId o.property x =
        { x with status := OfferStatus.rejected } := by
      unfold OfferEngine.acceptUpdate
      rw [if_neg (by simp [hxid]), if_pos (by simp [hxprop, hxact, hxdel])]
    exact hwrite ▸ List.mem_map_of_mem _ hx
  · intro hno y hy hyprop hyacc
    obtain ⟨x, hx, rfl⟩ := List.mem_map.mp hy
    by_cases hxid : (x.id == offerId) = true
    · have hxo : x = o := eq_of_key_eq Offer.id hnodup hx homem
        (by rw [beq_iff_eq] at hxid; rw [hxid, hoid])
      subst hxo
      unfold OfferEngine.acceptUpdate
      rw [if_pos hxid]
    · unfold OfferEngine.acceptUpdate at hyprop hyacc
      rw [if_neg hxid] at hyprop hyacc
      by_cases hbatch : (x.property == o.property && x.status.isActiveStatus && !x.isDeleted)
          = true
      · rw [if_pos hbatch] at hyacc
        have : OfferStatus.rejected = OfferStatus.accepted := hyacc
        cases this
      · rw [if_neg hbatch] at hyprop hyacc
        exact absurd hyacc (hno x hx hyprop)

/-- Witness for C6: accepting the pending offer 0 on property 1 while a
countered offer of another buyer exists on the same property yields a store
where offer 0 is accepted (and the other offer was batch-rejected). -/
theorem claim_C6_witness :
    OfferEngine.findOffer
        ⟨[⟨0, 1, 1, 100, .accepted, 0, false⟩, ⟨1, 1, 2, 90, .rejected, 0, false⟩], 2⟩ 0 =
      some ⟨0, 1, 1, 100, .accepted, 0, false⟩ := by
  have h := claim_C6 (fun _ _ => true)
    ⟨[⟨0, 1, 1, 100, .pending, 0, false⟩, ⟨1, 1, 2, 90, .countered, 0, false⟩], 2⟩ 0 9
    ⟨0, 1, 1, 100, .pending, 0, false⟩
    ⟨[⟨0, 1, 1, 100, .accepted, 0, false⟩, ⟨1, 1, 2, 90, .rejected, 0, false⟩], 2⟩
    (by decide) (by decide) rfl
  exact h.2.1

/-- C7: upsertReview fails with InvalidRating iff the integer rating is
outside [1,5]; otherwise, if a non-deleted review for (user, property)
exists it is edited in place with the aggregate recomputed from
delta = newRating − oldRating and the count unchanged, and if none exists a
review is created with the count incremented and the sum increased by the
rating. -/
theorem claim_C7 (s : RatingEngine.State) (user property : Nat) (rating : Int)
    (comment : String) :
    (RatingEngine.upsertReview s user property rating comment = .error .InvalidRating ↔
        (rating < 1 ∨ 5 < rating)) ∧
      (∀ old, 1 ≤ rating → rating ≤ 5 →
        RatingEngine.findReview s.reviews user property = some old →
        RatingEngine.upsertReview s user property rating comment =
          .ok ⟨RatingEngine.editReview user property rating comment s.reviews, s.nextId,
            s.ratingsCount,
            fun q => if q = property then
                (s.averageRating property * (s.ratingsCount property : ℚ) +
                  ((rating : ℚ) - (old.rating : ℚ))) / (s.ratingsCount property : ℚ)
              else s.averageRating q⟩) ∧
      (1 ≤ rating → rating ≤ 5 →
        RatingEngine.findReview s.reviews user property = none →
        RatingEngine.upsertReview s user property rating comment =
          .ok ⟨⟨s.nextId, property, user, rating, comment, false⟩ :: s.reviews, s.nextId + 1,
            fun q => if q = property then s.ratingsCount property + 1 else s.ratingsCount q,
            fun q => if q = property then
                (s.averageRating property * (s.ratingsCount property : ℚ) + (rating : ℚ)) /
                  ((s.ratingsCount property : ℚ) + 1)
              else s.averageRating q⟩) := by
  refine ⟨?_, ?_, ?_⟩
  · unfold RatingEngine.upsertReview
    by_cases hv : rating < 1 ∨ 5 < rating
    · rw [if_pos hv]
      exact ⟨fun _ => hv, fun _ => rfl⟩
    · rw [if_neg hv]
      refine ⟨fun hh => ?_, fun hv' => absurd hv' hv⟩
      split at hh <;> cases hh
  · intro old h1 h5 hfind
    unfold RatingEngine.upsertReview
    rw [if_neg (by omega), hfind]
  · intro h1 h5 hfind
    unfold RatingEngine.upsertReview
    rw [if_neg (by omega), hfind]

/-- Witness for C7: the spec section 8 scenario — user 1 has a rating-3
review of property 1 with count 1; upserting rating 5 edits the review in
place: the store still holds one review, now rated 5, and the count stays
1. -/
theorem claim_C7_witness :
    ∃ s', RatingEngine.upsertReview
        ⟨[⟨0, 1, 1, 3, "a", false⟩], 1, fun q => if q = 1 then 1 else 0,
          fun q => if q = 1 then 3 else 0⟩ 1 1 5 "b" = .ok s' ∧
      s'.reviews = [⟨0, 1, 1, 5, "b", false⟩] ∧ s'.ratingsCount 1 = 1 := by
  have h := (claim_C7 ⟨[⟨0, 1, 1, 3, "a", false⟩], 1, fun q => if q = 1 then 1 else 0,
    fun q => if q = 1 then 3 else 0⟩ 1 1 5 "b").2.1 ⟨0, 1, 1, 3, "a", false⟩
    (by decide) (by decide) (by decide)
  exact ⟨_, h, by decide, rfl⟩

/-- C8: the repository's own Database Standards section requires isDeleted
and deletedAt on every model, but bookingSchema, reviewSchema and
favoriteSchema declare neither field and offerSchema lacks deletedAt, so
booking, review and favorite documents carry no soft-delete marker for the
first soft delete to set. -/
theorem claim_C8 :
    ("isDeleted" ∈ requiredModelFields ∧ "deletedAt" ∈ requiredModelFields) ∧
      ("isDeleted" ∉ bookingSchemaFields ∧ "deletedAt" ∉ bookingSchemaFields) ∧
      ("isDeleted" ∉ reviewSchemaFields ∧ "deletedAt" ∉ reviewSchemaFields) ∧
      ("isDeleted" ∉ favoriteSchemaFields ∧ "deletedAt" ∉ favoriteSchemaFields) ∧
      ("isDeleted" ∈ offerSchemaFields ∧ "deletedAt" ∉ offerSchemaFields) := by
  decide

/-- C9: the raw unique compound index on (property, user) of reviewSchema
does not exclude soft-deleted rows, so with only a soft-deleted review for
(user 1, property 1) stored the index rejects a new review for the same
pair, while the spec-modelled Rating Aggregator (soft-deleted reviews
excluded from the uniqueness check, spec section 4.5) sees no active review
and creates the new review. -/
theorem claim_C9 :
    reviewUniqueIndexBlocks [⟨0, 1, 1, 5, "a", true⟩] 1 1 = true ∧
      RatingEngine.findReview [⟨0, 1, 1, 5, "a", true⟩] 1 1 = none ∧
      ∃ s', RatingEngine.upsertReview
          ⟨[⟨0, 1, 1, 5, "a", true⟩], 1, fun _ => 0, fun _ => 0⟩ 1 1 4 "b" = .ok s' ∧
        s'.reviews = [⟨1, 1, 1, 4, "b", false⟩, ⟨0, 1, 1, 5, "a", true⟩] ∧
        s'.ratingsCount 1 = 1 := by
  refine ⟨by decide, by decide, _, rfl, by decide, rfl⟩

/-- C10: after any sequence of favorite-toggle operations favoritesCount
equals the size of the favorite set of each property and each
(user, property) pair is favorited at most once; adding a favorite when
none exists increments the property's favoritesCount by 1; favoriting an
already-favorited pair reports AlreadyFavorited and is a no-op on the
store; and removing an existing favorite decrements the count by 1 (in a
consistent store, exactly undoing one increment). -/
theorem claim_C10 :
    (∀ ops : List FavoriteEngine.Op, FavoriteEngine.Consistent (FavoriteEngine.run ops)) ∧
      (∀ (s : FavoriteEngine.State) (user property : Nat),
        FavoriteEngine.isFavorited s.favorites user property = false →
          ∃ s', FavoriteEngine.add s user property = .ok s' ∧
            s'.favoritesCount property = s.favoritesCount property + 1 ∧
            s'.favorites = ⟨user, property⟩ :: s.favorites) ∧
      (∀ (s : FavoriteEngine.State) (user property : Nat),
        FavoriteEngine.isFavorited s.favorites user property = true →
          FavoriteEngine.add s user property = .error .AlreadyFavorited ∧
            FavoriteEngine.applyOp s (.add user property) = s) ∧
      (∀ (s : FavoriteEngine.State) (user property : Nat),
        FavoriteEngine.isFavorited s.favorites user property = true →
          ∃ s', FavoriteEngine.remove s user property = .ok s' ∧
            s'.favoritesCount property = s.favoritesCount property - 1 ∧
            (FavoriteEngine.Consistent s →
              s'.favoritesCount property + 1 = s.favoritesCount property)) := by
  refine ⟨FavoriteEngine.fav_consistent_run, ?_, ?_, ?_⟩
  · intro s user property hfav
    have hok : FavoriteEngine.add s user property =
        .ok ⟨⟨user, property⟩ :: s.favorites,
          fun q => if q = property then s.favoritesCount property + 1
            else s.favoritesCount q⟩ := by
      unfold FavoriteEngine.add
      rw [if_neg (by simp [hfav])]
    exact ⟨_, hok, by simp, rfl⟩
  · intro s user property hfav
    have herr : FavoriteEngine.add s user property = .error .AlreadyFavorited := by
      unfold FavoriteEngine.add
      rw [if_pos hfav]
    refine ⟨herr, ?_⟩
    simp only [FavoriteEngine.applyOp, herr]
  · intro s user property hfav
    have hok : FavoriteEngine.remove s user property =
        .ok ⟨s.favorites.filter fun f => !(f.user == user && f.property == property),
          fun q => if q = property then s.favoritesCount property - 1
            else s.favoritesCount q⟩ := by
      unfold FavoriteEngine.remove
      rw [if_pos hfav]
    refine ⟨_, hok, by simp, ?_⟩
    intro hcons
    obtain ⟨hcnt, huniq⟩ := hcons
    have hpos : 1 ≤ s.favoritesCount property := by
      unfold FavoriteEngine.isFavorited at hfav
      rw [List.any_eq_true] at hfav
      obtain ⟨f, hf, hpf⟩ := hfav
      have hfp : f.property = property := by
        simp only [Bool.and_eq_true, beq_iff_eq] at hpf
        exact hpf.2
      have : f ∈ FavoriteEngine.favoritesOf s.favorites property := by
        unfold FavoriteEngine.favoritesOf
        exact List.mem_filter.mpr ⟨hf, by simp [hfp]⟩
      rw [hcnt property]
      have hne : FavoriteEngine.favoritesOf s.favorites property ≠ [] :=
        List.ne_nil_of_mem this
      have := List.length_pos.mpr hne
      omega
    dsimp only
    rw [if_pos rfl]
    omega

/-- Witness for C10: user 1 favorites property 2 on the empty store
(count 0 → 1); favoriting again fails with AlreadyFavorited and leaves the
store unchanged; unfavoriting returns the count to 0. -/
theorem claim_C10_witness :
    (∃ s', FavoriteEngine.add ⟨[], fun _ => 0⟩ 1 2 = .ok s' ∧
        s'.favoritesCount 2 = (fun _ => (0 : Nat)) 2 + 1 ∧
        s'.favorites = [⟨1, 2⟩]) ∧
      FavoriteEngine.add ⟨[⟨1, 2⟩], fun q => if q = 2 then 1 else 0⟩ 1 2 =
        .error .AlreadyFavorited ∧
      (∃ s', FavoriteEngine.remove ⟨[⟨1, 2⟩], fun q => if q = 2 then 1 else 0⟩ 1 2 = .ok s' ∧
        s'.favoritesCount 2 = 0) := by
  refine ⟨?_, ?_, ?_⟩
  · exact claim_C10.2.1 ⟨[], fun _ => 0⟩ 1 2 (by decide)
  · exact (claim_C10.2.2.1 ⟨[⟨1, 2⟩], fun q => if q = 2 then 1 else 0⟩ 1 2 (by decide)).1
  · obtain ⟨s', hok, hcnt, _⟩ :=
      claim_C10.2.2.2 ⟨[⟨1, 2⟩], fun q => if q = 2 then 1 else 0⟩ 1 2 (by decide)
    refine ⟨s', hok, ?_⟩
    rw [hcnt]
    decide

/-- Witness for C3: on the empty store property 1 has count 0, and the
exposed average is 0 rather than a division by zero. -/
theorem claim_C3_witness : (RatingEngine.run []).averageRating 1 = 0 :=
  (claim_C3 [] 1).2.2.1 rfl
